import Mathlib

/-!
Verification development for the aru concurrency engine (src/aru.c, src/aru.h).

Nodes are modelled by their insertion index: the node created by the k-th
head-swap is node k, so index order coincides with submission order and the
well-linked doubly linked list has prev i = i-1 and next i = i+1.  Node tags
are Bool (false = ARU_TAG_PENDING, true = ARU_TAG_DONE).

The development contains:
* a direct embedding of the dependency walks of execute_node;
* a direct embedding of the reclamation destructor aru_tail_version_free;
* an interleaved multi-thread machine for insert_node_and_execute /
  execute_nodes_and_adjust_tail, one shared-memory access per step at the
  points where the order of accesses matters (steps that only touch
  thread-local or not-yet-published state are merged);
* a transition system for the tail-segment chain (submission, tail
  advancement, reclamation), whose transitions apply the embedded functions;
* embeddings of aru_init, aru_update, aru_read, aru_destroy.

The reclamation gate (the atomsnap library) is not part of src/; wherever a
gate operation is needed it is modelled from the spec, and the definition
says so in its doc comment.
-/

/-- Node kind tag: ARU_NODE_TYPE_UPDATE / ARU_NODE_TYPE_READ (src/aru.c:13-14). -/
inductive NType
  | update
  | read
deriving DecidableEq, Inhabited

/-- Embedding of the predecessor walk in the UPDATE branch of execute_node
(src/aru.c:249-255): follow prev links while the pointer is non-null and not
the tail node, requiring every visited node to be DONE.  Returns false as soon
as a PENDING predecessor is met (the C code returns BREAK there).  The fuel
argument bounds the pointer chase so the definition is total; every back chain
of a log with n nodes is covered by fuel = n, and the walk result is
independent of any fuel at least that large. -/
def updWalk (tags : List Bool) (prevL : List (Option Nat)) (tailIdx : Nat) :
    Nat → Option Nat → Bool
  | _, none => true
  | 0, some _ => false
  | fuel+1, some j =>
    if j = tailIdx then true
    else if tags.getD j false = false then false
    else updWalk tags prevL tailIdx fuel (prevL.getD j none)

/-- Embedding of the predecessor walk in the READ branch of execute_node
(src/aru.c:261-268): like updWalk but only UPDATE predecessors are required
to be DONE; other reads are skipped. -/
def readWalk (tags : List Bool) (types : List NType) (prevL : List (Option Nat))
    (tailIdx : Nat) : Nat → Option Nat → Bool
  | _, none => true
  | 0, some _ => false
  | fuel+1, some j =>
    if j = tailIdx then true
    else if types.getD j NType.read = NType.update ∧ tags.getD j false = false then false
    else readWalk tags types prevL tailIdx fuel (prevL.getD j none)

/-- Embedding of the dependency-readiness part of execute_node
(src/aru.c:244-274).  Returns true exactly when the C function returns BREAK:
for an UPDATE node the walk from node->prev must succeed and the tail node
itself must be DONE (src/aru.c:257); for a READ node the walk must succeed
and the tail node, if it is an UPDATE, must be DONE (src/aru.c:270-272). -/
def executeNodeBreak (tags : List Bool) (types : List NType)
    (prevL : List (Option Nat)) (nodeIdx tailIdx fuel : Nat) : Bool :=
  let start := prevL.getD nodeIdx none
  if types.getD nodeIdx NType.read = NType.update then
    if updWalk tags prevL tailIdx fuel start = false then true
    else if tags.getD tailIdx false = false then true
    else false
  else
    if readWalk tags types prevL tailIdx fuel start = false then true
    else if types.getD tailIdx NType.read = NType.update ∧ tags.getD tailIdx false = false then
      true
    else false

/-- Tail segment (struct aru_tail_version, src/aru.c:65-71).  prevSeg and
released together model the word tail_version_prev with the release bit
TAIL_VERSION_RELEASE_MASK packed into it (src/aru.c:105); nextSeg models
tail_version_next; headNode and tailNode delimit the covered node range
(headNode = none models a NULL head_node, the state of the currently
installed segment).  refcnt is the gate reference count of this version;
the gate itself (atomsnap) is not under src/ and its acquire/release
counting is modelled from spec section 4.1. -/
structure Seg where
  prevSeg : Option Nat
  released : Bool
  nextSeg : Option Nat
  headNode : Option Nat
  tailNode : Nat
  refcnt : Nat
deriving DecidableEq, Inhabited

/-- Embedding of the node-freeing loop of aru_tail_version_free
(src/aru.c:125-130): starting at the segment's tail node, step to node->next
and free the new node's prev, until the cursor equals head_node; finally free
head_node itself (free of a NULL pointer is a no-op).  Freeing is recorded by
setting the node's entry in the freed list.  Returns none when the C code
would dereference a NULL node pointer, which happens when the cursor runs off
the end of the list without meeting head_node. -/
def freeRange (nextL prevL : List (Option Nat)) (headN : Option Nat) :
    Nat → Option Nat → List Bool → Option (List Bool)
  | 0, _, _ => none
  | fuel+1, cur, fr =>
    if cur = headN then
      match headN with
      | some h => some (fr.set h true)
      | none => some fr
    else
      match cur with
      | none => none
      | some c =>
        match nextL.getD c none with
        | none => none
        | some c2 =>
          match prevL.getD c2 none with
          | none => freeRange nextL prevL headN fuel (some c2) fr
          | some p => freeRange nextL prevL headN fuel (some c2) (fr.set p true)

/-- Embedding of the free_tail_nodes loop of aru_tail_version_free
(src/aru.c:122-147): free the nodes covered by segment v, then look at the
successor segment; if the successor's release bit is already set, or the
compare-and-swap of its back pointer to NULL fails, chain into the successor
and free its nodes too; on a successful compare-and-swap stop.  oracle j
gives the outcome of the compare-and-swap performed while segment j is the
current one.  Returns none when the C code would fail its assertion
(successor NULL) or dereference NULL inside the node-freeing loop. -/
def tvFreeLoop (nextL prevL : List (Option Nat)) (oracle : Nat → Bool) :
    Nat → Nat → List Seg → List Bool → Option (List Seg × List Bool)
  | 0, _, _, _ => none
  | fuel+1, v, segs, fr =>
    let sg := segs.getD v default
    match freeRange nextL prevL sg.headNode (fr.length + 1) (some sg.tailNode) fr with
    | none => none
    | some fr' =>
      match sg.nextSeg with
      | none => none
      | some nv =>
        let nsg := segs.getD nv default
        if nsg.released then tvFreeLoop nextL prevL oracle fuel nv segs fr'
        else if oracle v then
          some (segs.set nv { nsg with prevSeg := none, released := false }, fr')
        else tvFreeLoop nextL prevL oracle fuel nv segs fr'

/-- Embedding of aru_tail_version_free (src/aru.c:106-147).  The entry
atomic_fetch_or sets the release bit on the segment's back-pointer word and
returns the old word; if that old word is non-null (pointer part or bit) the
function returns at once without freeing anything (src/aru.c:116-118),
otherwise it runs the chained freeing loop. -/
def tailVersionFree (nextL prevL : List (Option Nat)) (oracle : Nat → Bool)
    (v : Nat) (segs : List Seg) (fr : List Bool) : Option (List Seg × List Bool) :=
  let sg := segs.getD v default
  let segs' := segs.set v { sg with released := true }
  if sg.prevSeg ≠ none ∨ sg.released = true then some (segs', fr)
  else tvFreeLoop nextL prevL oracle (segs.length + 1) v segs' fr

/-- Program counter of one in-flight submission (one call to aru_update or
aru_read running insert_node_and_execute, src/aru.c:358-416).  Each
constructor is the next shared-memory access the thread will perform; steps
that only touch thread-local state are merged into the neighbouring shared
access.  fetchFlag is the flag read / atomic_fetch_or (src/aru.c:372-374);
swap is the atomic_exchange of aru->head (src/aru.c:378-379); initTail is the
first-node branch creating and installing the initial segment and setting
tail_init_flag (src/aru.c:385-396); linkNext and linkPrev are the two stores
prev_head->next = node and node->prev = prev_head, in the order the source
performs them (src/aru.c:398-399); waitInit is the pause-spin on
tail_init_flag (src/aru.c:402-404); acquireTail is atomsnap_acquire_version
plus the traversal-local initialisation (src/aru.c:310-312,407); travCheck,
running, finishNode and travAdvance make up the traversal loop of
execute_nodes_and_adjust_tail (src/aru.c:314-343), with running standing for
the time the user callback is executing; adjustTest, adjInstall, adjSetNext
and adjSetHead are the tail-move test and the three shared writes of
adjust_tail (src/aru.c:345-347 and 207-224); releaseTail is
atomsnap_release_version (src/aru.c:411) and releaseFlag the conditional
store of tail_move_flag (src/aru.c:413-415). -/
inductive PC
  | fetchFlag
  | swap
  | initTail
  | linkNext
  | linkPrev
  | waitInit
  | acquireTail
  | travCheck
  | running
  | finishNode
  | travAdvance
  | adjustTest
  | adjInstall
  | adjSetNext
  | adjSetHead
  | releaseTail
  | releaseFlag
  | finished
deriving DecidableEq, Inhabited

/-- Thread-local state of one in-flight submission.  nty and hasCell are the
node type and whether the caller passed a status-cell pointer; myNode is the
node index obtained by the head swap; prevHead the previous head returned by
the swap; captured records fetched_tail_move_flag == 0; tailSeg the acquired
tail version; cursor, prevNode, afterInserted are the locals node, prev_node,
after_inserted_node of execute_nodes_and_adjust_tail (src/aru.c:310-312);
newSeg remembers the index of the segment created by adjInstall. -/
structure TState where
  nty : NType
  hasCell : Bool
  pc : PC
  myNode : Nat
  prevHead : Option Nat
  captured : Bool
  tailSeg : Nat
  cursor : Option Nat
  prevNode : Nat
  afterInserted : Bool
  newSeg : Nat
deriving DecidableEq, Inhabited

/-- Shared state of one engine plus its in-flight submissions.  Node i's
fields live at position i of the per-node lists; nextL and prevL start as
none (calloc) and are written by the link steps; head, tailMoveFlag and
tailInitFlag are the fields of struct aru (src/aru.c:88-93); segs is the
list of every tail version created so far and installed the index of the
gate-current one; cells holds the value of the caller status cell registered
for each node (none when the caller passed NULL); crashed records that a
destructor run hit undefined behaviour. -/
structure MState where
  numNodes : Nat
  types : List NType
  tags : List Bool
  locks : List Bool
  nextL : List (Option Nat)
  prevL : List (Option Nat)
  freed : List Bool
  head : Option Nat
  tailMoveFlag : Bool
  tailInitFlag : Bool
  segs : List Seg
  installed : Nat
  cells : List (Option Bool)
  threads : List TState
  crashed : Bool
deriving DecidableEq, Inhabited

/-- One step of thread t against shared state st; returns the new shared
state and the new thread state.  Each branch mirrors the piece of
src/aru.c named by the corresponding PC constructor.  The gate operations
(make version, install, acquire, release) are modelled from spec section 4.1
since the atomsnap library is not under src/: acquire returns the installed
version and increments its count, install appends and switches the installed
index (retiring the previous version), release decrements the count and runs
the destructor tailVersionFree when the count of a retired version reaches
zero.  The destructor compare-and-swap oracle is constant true because a
destructor invocation is modelled as a single atomic step, so no concurrent
bit-set can intervene between its load and its compare-and-swap. -/
def stepT (st : MState) (t : TState) : MState × TState :=
  match t.pc with
  | .fetchFlag =>
    if st.tailMoveFlag = false then
      ({ st with tailMoveFlag := true }, { t with captured := true, pc := .swap })
    else (st, { t with captured := false, pc := .swap })
  | .swap =>
    let idx := st.numNodes
    let st' := { st with
      numNodes := idx + 1,
      types := st.types ++ [t.nty],
      tags := st.tags ++ [false],
      locks := st.locks ++ [false],
      nextL := st.nextL ++ [none],
      prevL := st.prevL ++ [none],
      freed := st.freed ++ [false],
      cells := st.cells ++ [if t.hasCell then some false else none],
      head := some idx }
    (st', { t with
      myNode := idx, prevHead := st.head,
      pc := if st.head = none then .initTail else .linkNext })
  | .initTail =>
    let sg : Seg := { prevSeg := none, released := false, nextSeg := none,
                      headNode := none, tailNode := t.myNode, refcnt := 0 }
    ({ st with segs := st.segs ++ [sg], installed := st.segs.length,
               tailInitFlag := true }, { t with pc := .acquireTail })
  | .linkNext =>
    match t.prevHead with
    | some p => ({ st with nextL := st.nextL.set p (some t.myNode) }, { t with pc := .linkPrev })
    | none => (st, { t with pc := .linkPrev })
  | .linkPrev =>
    match t.prevHead with
    | some p => ({ st with prevL := st.prevL.set t.myNode (some p) }, { t with pc := .waitInit })
    | none => (st, { t with pc := .waitInit })
  | .waitInit =>
    if st.tailInitFlag then (st, { t with pc := .acquireTail }) else (st, t)
  | .acquireTail =>
    let sIdx := st.installed
    let sg := st.segs.getD sIdx default
    ({ st with segs := st.segs.set sIdx { sg with refcnt := sg.refcnt + 1 } },
     { t with
       tailSeg := sIdx, cursor := some sg.tailNode, prevNode := sg.tailNode,
       afterInserted := false, pc := .travCheck })
  | .travCheck =>
    match t.cursor with
    | none => (st, { t with pc := .adjustTest })
    | some c =>
      let tailN := (st.segs.getD t.tailSeg default).tailNode
      if st.tags.getD c false = false then
        if executeNodeBreak st.tags st.types st.prevL c tailN st.numNodes then
          (st, { t with pc := .adjustTest })
        else if st.locks.getD c false = false then
          ({ st with locks := st.locks.set c true }, { t with pc := .running })
        else (st, { t with pc := .travAdvance })
      else (st, { t with pc := .travAdvance })
  | .running => (st, { t with pc := .finishNode })
  | .finishNode =>
    match t.cursor with
    | some c =>
      let st' := { st with
        tags := st.tags.set c true,
        cells := match st.cells.getD c none with
          | some _ => st.cells.set c (some true)
          | none => st.cells }
      (st', { t with pc := .travAdvance })
    | none => (st, { t with pc := .travAdvance })
  | .travAdvance =>
    match t.cursor with
    | none => (st, { t with pc := .adjustTest })
    | some c =>
      if t.afterInserted then
        (st, { t with prevNode := c, cursor := st.nextL.getD c none, pc := .travCheck })
      else
        match st.nextL.getD c none with
        | none => (st, t)
        | some nx =>
          (st, { t with
            prevNode := c, cursor := some nx,
            afterInserted := nx = t.myNode, pc := .travCheck })
  | .adjustTest =>
    let tailN := (st.segs.getD t.tailSeg default).tailNode
    if t.captured ∧ t.prevNode ≠ tailN then (st, { t with pc := .adjInstall })
    else (st, { t with pc := .releaseTail })
  | .adjInstall =>
    let sg : Seg := { prevSeg := some t.tailSeg, released := false, nextSeg := none,
                      headNode := none, tailNode := t.prevNode, refcnt := 0 }
    ({ st with segs := st.segs ++ [sg], installed := st.segs.length },
     { t with newSeg := st.segs.length, pc := .adjSetNext })
  | .adjSetNext =>
    let old := st.segs.getD t.tailSeg default
    ({ st with segs := st.segs.set t.tailSeg { old with nextSeg := some t.newSeg } },
     { t with pc := .adjSetHead })
  | .adjSetHead =>
    let old := st.segs.getD t.tailSeg default
    let boundary := (st.segs.getD t.newSeg default).tailNode
    ({ st with segs := st.segs.set t.tailSeg { old with headNode := st.prevL.getD boundary none } },
     { t with pc := .releaseTail })
  | .releaseTail =>
    let sg := st.segs.getD t.tailSeg default
    let cnt := sg.refcnt - 1
    let st1 := { st with segs := st.segs.set t.tailSeg { sg with refcnt := cnt } }
    if cnt = 0 ∧ t.tailSeg ≠ st.installed then
      match tailVersionFree st1.nextL st1.prevL (fun _ => true) t.tailSeg st1.segs st1.freed with
      | some (segs', fr') =>
        ({ st1 with segs := segs', freed := fr' }, { t with pc := .releaseFlag })
      | none => ({ st1 with crashed := true }, { t with pc := .releaseFlag })
    else (st1, { t with pc := .releaseFlag })
  | .releaseFlag =>
    if t.captured then ({ st with tailMoveFlag := false }, { t with pc := .finished })
    else (st, { t with pc := .finished })
  | .finished => (st, t)

/-- Run thread tid for one step; the shared state is updated and the thread
state written back.  An out-of-range tid is a no-op. -/
def step (st : MState) (tid : Nat) : MState :=
  match st.threads.get? tid with
  | none => st
  | some t =>
    let r := stepT st t
    { r.1 with threads := r.1.threads.set tid r.2 }

/-- Run a schedule, one thread id per step. -/
def run (st : MState) (sched : List Nat) : MState :=
  sched.foldl step st

/-- Fresh engine (aru_init, src/aru.c:152-173) together with one planned
submission per entry of plan: node type and whether a status cell is passed.
Each planned submission is a thread parked at its first shared access. -/
def initState (plan : List (NType × Bool)) : MState :=
  { numNodes := 0, types := [], tags := [], locks := [], nextL := [], prevL := [],
    freed := [], head := none, tailMoveFlag := false, tailInitFlag := false,
    segs := [], installed := 0, cells := [],
    threads := plan.map fun p =>
      { nty := p.1, hasCell := p.2, pc := .fetchFlag, myNode := 0, prevHead := none,
        captured := false, tailSeg := 0, cursor := none, prevNode := 0,
        afterInserted := false, newSeg := 0 },
    crashed := false }

/-- Thread tid of a machine state (default thread when out of range). -/
def threadAt (st : MState) (tid : Nat) : TState :=
  st.threads.getD tid default

/-- Embedding of aru_init (src/aru.c:152-173).  okAru and okGate are the
outcomes of the two allocations (the aru record and the gate).  Modelled from
the spec: atomsnap_init_gate belongs to the reclamation-gate library, which
is not under src/, and is modelled as allocating the gate record with no
version installed.  Returns the engine (none on failure) and the messages
written to the diagnostic stream, with the source's exact text. -/
def aruInit (okAru okGate : Bool) : Option MState × List String :=
  if okAru = false then (none, ["aru_init: aru allocaation failed\n"])
  else if okGate = false then (none, ["aru_init: atomsnap_init_gate() failed\n"])
  else (some (initState []), [])

/-- Embedding of aru_update (src/aru.c:432-456) up to the hand-off to
insert_node_and_execute.  alloc is the outcome of the node calloc; cell is
the current value of the caller's status cell, none when the caller passes a
NULL tag pointer.  On allocation failure one message is written to the
diagnostic stream and the function returns with everything else untouched;
on success the node is initialised, the caller's cell receives
ARU_TAG_PENDING (false) before insertion, and the submission becomes a new
machine thread about to run insert_node_and_execute.  Returns the engine
state, the caller cell's value after the call, and the messages written. -/
def aruUpdate (alloc : Bool) (st : MState) (cell : Option Bool) :
    MState × Option Bool × List String :=
  if alloc = false then (st, cell, ["aru_update(): aru_node allocation failed\n"])
  else
    ({ st with threads := st.threads ++
        [{ nty := NType.update, hasCell := cell.isSome, pc := .fetchFlag, myNode := 0,
           prevHead := none, captured := false, tailSeg := 0, cursor := none,
           prevNode := 0, afterInserted := false, newSeg := 0 }] },
     cell.map fun _ => false, [])

/-- Embedding of aru_read (src/aru.c:474-498), identical to aruUpdate except
for the node type; the allocation-failure message is the one the source
actually prints there, which still says aru_update() (src/aru.c:480). -/
def aruRead (alloc : Bool) (st : MState) (cell : Option Bool) :
    MState × Option Bool × List String :=
  if alloc = false then (st, cell, ["aru_update(): aru_node allocation failed\n"])
  else
    ({ st with threads := st.threads ++
        [{ nty := NType.read, hasCell := cell.isSome, pc := .fetchFlag, myNode := 0,
           prevHead := none, captured := false, tailSeg := 0, cursor := none,
           prevNode := 0, afterInserted := false, newSeg := 0 }] },
     cell.map fun _ => false, [])

/-- Allocation state visible to aru_destroy: the nodes (with their freed
marks and tags), the head pointer, and whether the gate record and the
engine record are still allocated. -/
structure DestroyState where
  numNodes : Nat
  tags : List Bool
  freed : List Bool
  head : Option Nat
  gateAlive : Bool
  aruAlive : Bool
deriving DecidableEq

/-- Embedding of aru_destroy (src/aru.c:178-191).  Modelled from the spec:
atomsnap_destroy_gate belongs to the reclamation-gate library, which is not
under src/; spec section 4.1 says the gate invokes a version's destructor
exactly once when the last reference to a superseded version is dropped, and
the currently installed version has never been superseded, so destroying the
gate is modelled as freeing the gate record without running
aru_tail_version_free on the installed version.  After the gate call the
function frees the single node aru->head points to, when non-null
(src/aru.c:186-188), and then the engine record. -/
def aruDestroy (s : DestroyState) : DestroyState :=
  let s1 := { s with gateAlive := false }
  let s2 := match s.head with
    | some h => { s1 with freed := s1.freed.set h true }
    | none => s1
  { s2 with aruAlive := false }

/-- Zero outstanding allocations: every node freed and the gate and engine
records freed. -/
def allFreed (s : DestroyState) : Prop :=
  (∀ i, i < s.numNodes → s.freed.getD i false = true) ∧
  s.gateAlive = false ∧ s.aruAlive = false

/-- Forward links of a fully linked log of n nodes: node i points to i+1,
the most recent node to NULL. -/
def bNextL (n : Nat) : List (Option Nat) :=
  (List.range n).map fun i => if i + 1 < n then some (i + 1) else none

/-- Back links of a fully linked log of n nodes: node i points to i-1, the
oldest node to NULL. -/
def bPrevL (n : Nat) : List (Option Nat) :=
  (List.range n).map fun i => if i = 0 then none else some (i - 1)

/-- State of the tail-segment chain: number of inserted nodes, every segment
created so far in creation order (the installed one last), per-node freed
marks, and per-segment marks of whether the gate has invoked the destructor
on that segment yet. -/
structure BState where
  n : Nat
  segs : List Seg
  freed : List Bool
  invoked : List Bool
deriving DecidableEq

/-- Chain state right after the first submission installed the initial
segment (src/aru.c:385-396): one node, one segment covering it, nothing
freed, destructor not yet invoked anywhere. -/
def bInit : BState :=
  { n := 1,
    segs := [{ prevSeg := none, released := false, nextSeg := none,
               headNode := none, tailNode := 0, refcnt := 0 }],
    freed := [false], invoked := [false] }

/-- Tail node of segment j. -/
def segTailB (st : BState) (j : Nat) : Nat :=
  (st.segs.getD j default).tailNode

/-- Effect of adjust_tail (src/aru.c:207-224) on the chain when the mover
advances the tail to node b: a new segment with tail-node b, back pointer to
the old installed segment, clear release bit, no successor and NULL
head-node is created and installed; the old segment's forward pointer is set
to it and the old segment's head-node to b's back link.  The bookkeeping
mark saying whether the gate has invoked the new segment's destructor
starts false. -/
def bAdvance (st : BState) (b : Nat) : BState :=
  let oldIdx := st.segs.length - 1
  let old := st.segs.getD oldIdx default
  let sg : Seg := { prevSeg := some oldIdx, released := false, nextSeg := none,
                    headNode := none, tailNode := b, refcnt := 0 }
  { st with
    segs :=
      (st.segs.set oldIdx
        { old with nextSeg := some st.segs.length,
                   headNode := (bPrevL st.n).getD b none }) ++ [sg],
    invoked := st.invoked ++ [false] }

/-- Transitions of the chain system.  insert is one head-swap
(src/aru.c:379); advance is one tail advancement by the designated mover,
whose boundary b is some node the traversal walked past, hence strictly
beyond the installed segment's tail node and inserted (src/aru.c:345-346);
reclaim k is the gate invoking the destructor aru_tail_version_free on a
retired segment it has not been invoked on before, modelled from spec
section 4.1 (the gate runs the destructor of a superseded version exactly
once, when its reference count reaches zero).  The compare-and-swap oracle
is constant true because a destructor invocation is one atomic step here, so
no concurrent bit-set can intervene between its load and compare-and-swap. -/
inductive BStep : BState → BState → Prop
  | insert (st : BState) :
      BStep st { st with n := st.n + 1, freed := st.freed ++ [false] }
  | advance (st : BState) (b : Nat)
      (h1 : segTailB st (st.segs.length - 1) < b) (h2 : b < st.n) :
      BStep st (bAdvance st b)
  | reclaim (st : BState) (k : Nat) (segs' : List Seg) (fr' : List Bool)
      (hk : k + 1 < st.segs.length)
      (hinv : st.invoked.getD k false = false)
      (hres : tailVersionFree (bNextL st.n) (bPrevL st.n) (fun _ => true) k st.segs st.freed
        = some (segs', fr')) :
      BStep st { st with segs := segs', freed := fr', invoked := st.invoked.set k true }

/-- Chain states reachable from the first-submission state. -/
inductive BReach : BState → Prop
  | init : BReach bInit
  | step {s s' : BState} : BReach s → BStep s s' → BReach s'

/-- Node i lies in the range segment j covers: from the segment's tail node
up to its head node, or up to the end of the log for the installed segment
(whose head node is still NULL). -/
def segRange (st : BState) (j i : Nat) : Prop :=
  (st.segs.getD j default).tailNode ≤ i ∧
  match (st.segs.getD j default).headNode with
  | some h => i ≤ h
  | none => i < st.n

/-- The chain of tail segments partitions the not-yet-freed nodes: for some
cut f, the segments from f on cover exactly the unfreed nodes, consecutive
covered ranges are contiguous, and distinct segments cover disjoint
ranges. -/
def chainPartition (st : BState) : Prop :=
  ∃ f, f < st.segs.length ∧
    (∀ i, i < st.n →
      (st.freed.getD i false = false ↔
        ∃ j, f ≤ j ∧ j < st.segs.length ∧ segRange st j i)) ∧
    (∀ j, f ≤ j → j + 1 < st.segs.length →
      (st.segs.getD j default).headNode = some (segTailB st (j + 1) - 1) ∧
      segTailB st j < segTailB st (j + 1)) ∧
    (∀ j1 j2 i, f ≤ j1 → j1 < j2 → j2 < st.segs.length →
      segRange st j1 i → ¬ segRange st j2 i)

/-- The log's back links are fully initialised over its first n nodes: node
i's prev pointer is node i-1, the oldest node's prev is NULL.  This is the
state of the list once every submitter has performed both link stores. -/
@[reducible]
def wellLinkedPrev (prevL : List (Option Nat)) (n : Nat) : Prop :=
  ∀ i, i < n → prevL.getD i none = if i = 0 then none else some (i - 1)

/-- Claim-side description of the chain of segments one destructor run
frees, following the words of the reclamation claim: starting from the
segment whose nodes were just freed, continue into the successor when the
successor's released bit is already set or the compare-and-swap of the
successor's back pointer fails, and stop on a successful compare-and-swap
(or when there is no successor). -/
def claimChain (segs : List Seg) (oracle : Nat → Bool) : Nat → Nat → List Nat
  | 0, v => [v]
  | fuel+1, v =>
    match (segs.getD v default).nextSeg with
    | none => [v]
    | some nv =>
      if (segs.getD nv default).released = true ∨ oracle v = false then
        v :: claimChain segs oracle fuel nv
      else [v]

/-- Claim-side freed set: node i is freed by the run when some segment of
the chain covers it, from that segment's tail-node to its head-node
inclusive. -/
def claimFreedAt (segs : List Seg) (chain : List Nat) (i : Nat) : Bool :=
  chain.any fun j =>
    decide ((segs.getD j default).tailNode ≤ i) &&
    match (segs.getD j default).headNode with
    | some h => decide (i ≤ h)
    | none => false

/-- Inductive invariant of the chain system, with f the index of the oldest
segment whose nodes are not yet freed.  It records the shape of the chain
(tails strictly increasing from 0, forward and head links of every retired
segment set, the installed segment open), the released-bit protocol
(released exactly on the segments whose destructor was invoked, destructors
only invoked on retired segments), and the reclamation frontier (exactly the
nodes below segment f's tail are freed, every segment below f has had its
destructor invoked, segment f's back pointer has been cleared and its
destructor not yet invoked, segments above f still point at their
predecessors). -/
structure FullInv (st : BState) (f : Nat) : Prop where
  hseg : 1 ≤ st.segs.length
  hfr : st.freed.length = st.n
  hinvLen : st.invoked.length = st.segs.length
  htail0 : segTailB st 0 = 0
  hmono : ∀ j, j + 1 < st.segs.length → segTailB st j < segTailB st (j + 1)
  hlast : segTailB st (st.segs.length - 1) < st.n
  hnext : ∀ j, j + 1 < st.segs.length → (st.segs.getD j default).nextSeg = some (j + 1)
  hhead : ∀ j, j + 1 < st.segs.length →
    (st.segs.getD j default).headNode = some (segTailB st (j + 1) - 1)
  hnextLast : (st.segs.getD (st.segs.length - 1) default).nextSeg = none
  hheadLast : (st.segs.getD (st.segs.length - 1) default).headNode = none
  hrel : ∀ j, j < st.segs.length →
    ((st.segs.getD j default).released = true ↔ st.invoked.getD j false = true)
  hretired : ∀ j, st.invoked.getD j false = true → j + 1 < st.segs.length
  hf : f < st.segs.length
  hfreed : ∀ i, i < st.n → (st.freed.getD i false = true ↔ i < segTailB st f)
  hinvBelow : ∀ j, j < f → st.invoked.getD j false = true
  hinvAtF : st.invoked.getD f false = false
  hprevF : (st.segs.getD f default).prevSeg = none
  hprevAbove : ∀ j, f < j → j < st.segs.length →
    (st.segs.getD j default).prevSeg = some (j - 1)

/-- Thread tid is currently executing node i's callback: it won the trylock
on i and its callback has not returned yet. -/
@[reducible]
def runningOn (st : MState) (tid i : Nat) : Prop :=
  (threadAt st tid).pc = PC.running ∧ (threadAt st tid).cursor = some i

/-- Four submissions: a READ then three UPDATEs, no status cells. -/
def c1plan : List (NType × Bool) :=
  [(NType.read, false), (NType.update, false), (NType.update, false), (NType.update, false)]

/-- Interleaving exhibiting two concurrent UPDATE callbacks: thread 0
submits the READ, executes it, and parks at the log tip; thread 1 submits
UPDATE node 1, wins its trylock and is inside its callback; thread 2
submits UPDATE node 2 but is preempted after publishing the forward link
node1->next and before writing node2->prev (src/aru.c:398 happens before
src/aru.c:399); thread 3 submits UPDATE node 3, walks from the tail, fails
the trylock on node 1, reaches node 2, whose back link is still NULL, so
the readiness walk sees no predecessor, and starts node 2's callback while
thread 1 is still inside node 1's callback. -/
def c1sched : List Nat :=
  (List.replicate 7 0) ++ (List.replicate 9 1) ++ (List.replicate 3 2) ++ (List.replicate 11 3)

/-- Machine state after running c1sched from four fresh submissions. -/
def c1final : MState := run (initState c1plan) c1sched

/-- Three submissions: two UPDATEs then a READ, no status cells. -/
def c4plan : List (NType × Bool) :=
  [(NType.update, false), (NType.update, false), (NType.read, false)]

/-- Fully sequential schedule: each submission runs to completion before the
next starts.  Every traversal breaks immediately at the tail node, an
UPDATE whose own tag can never satisfy the check of src/aru.c:257. -/
def c4sched : List Nat :=
  (List.replicate 8 0) ++ (List.replicate 10 1) ++ (List.replicate 10 2)

/-- Machine state after running c4sched from three fresh submissions. -/
def c4final : MState := run (initState c4plan) c4sched

/-- A quiescent two-node engine: both callbacks have returned, nothing has
been freed, head points at node 1, gate and engine records allocated. -/
def c8state : DestroyState :=
  { numNodes := 2, tags := [true, true], freed := [false, false],
    head := some 1, gateAlive := true, aruAlive := true }

/-- Thread poised at the traversal check of node 1 with the UPDATE
dependency rule about to run: submission finished inserting, tail segment 0
acquired, cursor on node 1. -/
def c2witT : TState :=
  { nty := NType.update, hasCell := false, pc := PC.travCheck, myNode := 1,
    prevHead := some 0, captured := true, tailSeg := 0, cursor := some 1,
    prevNode := 0, afterInserted := true, newSeg := 0 }

/-- Two-node engine, node 0 an UPDATE already DONE, node 1 a PENDING UPDATE,
links fully written, one thread (c2witT) at the traversal check of node 1. -/
def c2wit : MState :=
  { numNodes := 2, types := [NType.update, NType.update], tags := [true, false],
    locks := [false, false], nextL := [some 1, none], prevL := [none, some 0],
    freed := [false, false], head := some 1, tailMoveFlag := true,
    tailInitFlag := true,
    segs := [{ prevSeg := none, released := false, nextSeg := none,
               headNode := none, tailNode := 0, refcnt := 1 }],
    installed := 0, cells := [none, none], threads := [c2witT], crashed := false }

/-- Like c2witT but the node under the cursor is a READ. -/
def c3witT : TState :=
  { nty := NType.read, hasCell := false, pc := PC.travCheck, myNode := 1,
    prevHead := some 0, captured := true, tailSeg := 0, cursor := some 1,
    prevNode := 0, afterInserted := true, newSeg := 0 }

/-- Two-node engine, node 0 an UPDATE already DONE, node 1 a PENDING READ,
one thread (c3witT) at the traversal check of node 1. -/
def c3wit : MState :=
  { numNodes := 2, types := [NType.update, NType.read], tags := [true, false],
    locks := [false, false], nextL := [some 1, none], prevL := [none, some 0],
    freed := [false, false], head := some 1, tailMoveFlag := true,
    tailInitFlag := true,
    segs := [{ prevSeg := none, released := false, nextSeg := none,
               headNode := none, tailNode := 0, refcnt := 1 }],
    installed := 0, cells := [none, none], threads := [c3witT], crashed := false }

/-- Designated tail mover about to create and install the new tail segment:
it captured the flag, finished its traversal with last visited node 1, and
passed the adjustment test. -/
def c5witT : TState :=
  { nty := NType.update, hasCell := false, pc := PC.adjInstall, myNode := 1,
    prevHead := some 0, captured := true, tailSeg := 0, cursor := none,
    prevNode := 1, afterInserted := true, newSeg := 0 }

/-- Two-node engine whose two nodes are DONE, with c5witT about to run the
first shared write of adjust_tail. -/
def c5wit : MState :=
  { numNodes := 2, types := [NType.update, NType.update], tags := [true, true],
    locks := [true, true], nextL := [some 1, none], prevL := [none, some 0],
    freed := [false, false], head := some 1, tailMoveFlag := true,
    tailInitFlag := true,
    segs := [{ prevSeg := none, released := false, nextSeg := none,
               headNode := none, tailNode := 0, refcnt := 1 }],
    installed := 0, cells := [none, none], threads := [c5witT], crashed := false }

/-- Two retired-plus-installed segments over a two-node log: segment 0
covers node 0 (head node 0), segment 1 is installed with tail node 1. -/
def c7segs : List Seg :=
  [{ prevSeg := none, released := false, nextSeg := some 1,
     headNode := some 0, tailNode := 0, refcnt := 0 },
   { prevSeg := some 0, released := false, nextSeg := none,
     headNode := none, tailNode := 1, refcnt := 0 }]

theorem bNextL_getD {n i : Nat} (h : i < n) :
    (bNextL n).getD i none = if i + 1 < n then some (i + 1) else none := by
  simp [bNextL, List.getD, List.getElem?_map, List.getElem?_range, h]

theorem bPrevL_getD {n i : Nat} (h : i < n) :
    (bPrevL n).getD i none = if i = 0 then none else some (i - 1) := by
  simp [bPrevL, List.getD, List.getElem?_map, List.getElem?_range, h]

theorem getD_set_self {α : Type} {l : List α} {i : Nat} {b d : α} (h : i < l.length) :
    (l.set i b).getD i d = b := by
  simp [List.getD, List.getElem?_set_self, h]

theorem getD_set_other {α : Type} {l : List α} {i j : Nat} {b d : α} (h : i ≠ j) :
    (l.set i b).getD j d = l.getD j d := by
  simp [List.getD, List.getElem?_set_ne, h]

theorem updWalk_succ (tags : List Bool) (prevL : List (Option Nat)) (tailN fuel j : Nat) :
    updWalk tags prevL tailN (fuel+1) (some j) =
      if j = tailN then true
      else if tags.getD j false = false then false
      else updWalk tags prevL tailN fuel (prevL.getD j none) := rfl

theorem readWalk_succ (tags : List Bool) (types : List NType) (prevL : List (Option Nat))
    (tailN fuel j : Nat) :
    readWalk tags types prevL tailN (fuel+1) (some j) =
      if j = tailN then true
      else if types.getD j NType.read = NType.update ∧ tags.getD j false = false then false
      else readWalk tags types prevL tailN fuel (prevL.getD j none) := rfl

theorem updWalk_true_iff (tags : List Bool) (prevL : List (Option Nat)) (n tailN : Nat)
    (hw : wellLinkedPrev prevL n) :
    ∀ fuel j, j < fuel → j < n → tailN ≤ j →
    (updWalk tags prevL tailN fuel (some j) = true ↔
      ∀ k, tailN < k → k ≤ j → tags.getD k false = true) := by
  intro fuel
  induction fuel with
  | zero => intro j hj _ _; exact absurd hj (Nat.not_lt_zero j)
  | succ fuel ih =>
    intro j hj hjn htj
    rw [updWalk_succ]
    by_cases hjt : j = tailN
    · subst hjt
      rw [if_pos rfl]
      constructor
      · intro _ k hk1 hk2; exfalso; omega
      · intro _; rfl
    · rw [if_neg hjt]
      have hj0 : ¬ j = 0 := by omega
      have hp : prevL.getD j none = some (j - 1) := by rw [hw j hjn]; simp [hj0]
      rw [hp]
      by_cases htag : tags.getD j false = false
      · rw [if_pos htag]
        constructor
        · intro h; exact absurd h (by simp)
        · intro h
          have hjj := h j (by omega) (le_refl j)
          rw [hjj] at htag
          exact absurd htag (by simp)
      · rw [if_neg htag]
        have htagT : tags.getD j false = true := by
          cases hb : tags.getD j false
          · exact absurd hb htag
          · rfl
        rw [ih (j - 1) (by omega) (by omega) (by omega)]
        constructor
        · intro h k hk1 hk2
          rcases Nat.eq_or_lt_of_le hk2 with hk | hk
          · rw [hk]; exact htagT
          · exact h k hk1 (by omega)
        · intro h k hk1 hk2
          exact h k hk1 (by omega)

theorem readWalk_true_iff (tags : List Bool) (types : List NType)
    (prevL : List (Option Nat)) (n tailN : Nat) (hw : wellLinkedPrev prevL n) :
    ∀ fuel j, j < fuel → j < n → tailN ≤ j →
    (readWalk tags types prevL tailN fuel (some j) = true ↔
      ∀ k, tailN < k → k ≤ j → types.getD k NType.read = NType.update →
        tags.getD k false = true) := by
  intro fuel
  induction fuel with
  | zero => intro j hj _ _; exact absurd hj (Nat.not_lt_zero j)
  | succ fuel ih =>
    intro j hj hjn htj
    rw [readWalk_succ]
    by_cases hjt : j = tailN
    · subst hjt
      rw [if_pos rfl]
      constructor
      · intro _ k hk1 hk2; exfalso; omega
      · intro _; rfl
    · rw [if_neg hjt]
      have hj0 : ¬ j = 0 := by omega
      have hp : prevL.getD j none = some (j - 1) := by rw [hw j hjn]; simp [hj0]
      rw [hp]
      by_cases hcond : types.getD j NType.read = NType.update ∧ tags.getD j false = false
      · rw [if_pos hcond]
        constructor
        · intro h; exact absurd h (by simp)
        · intro h
          have hjj := h j (by omega) (le_refl j) hcond.1
          rw [hjj] at hcond
          exact absurd hcond.2 (by simp)
      · rw [if_neg hcond]
        rw [ih (j - 1) (by omega) (by omega) (by omega)]
        constructor
        · intro h k hk1 hk2 hku
          rcases Nat.eq_or_lt_of_le hk2 with hk | hk
          · subst hk
            cases hb : tags.getD k false
            · exact absurd ⟨hku, hb⟩ hcond
            · rfl
          · exact h k hk1 (by omega) hku
        · intro h k hk1 hk2 hku
          exact h k hk1 (by omega) hku

theorem executeNodeBreak_update_iff (tags : List Bool) (types : List NType)
    (prevL : List (Option Nat)) (n c tailN : Nat)
    (hw : wellLinkedPrev prevL n) (hc : c < n) (htc : tailN < c)
    (hty : types.getD c NType.read = NType.update) :
    executeNodeBreak tags types prevL c tailN n = false ↔
      ∀ k, tailN ≤ k → k < c → tags.getD k false = true := by
  have hc0 : ¬ c = 0 := by omega
  have hp : prevL.getD c none = some (c - 1) := by rw [hw c hc]; simp [hc0]
  have hwalk := updWalk_true_iff tags prevL n tailN hw n (c - 1) (by omega) (by omega)
    (by omega)
  unfold executeNodeBreak
  rw [if_pos hty, hp]
  cases hwk : updWalk tags prevL tailN n (some (c - 1)) with
  | false =>
    rw [if_pos rfl]
    constructor
    · intro h; exact absurd h (by simp)
    · intro h
      rw [hwk] at hwalk
      have : ∀ k, tailN < k → k ≤ c - 1 → tags.getD k false = true := by
        intro k hk1 hk2
        exact h k (by omega) (by omega)
      exact absurd (hwalk.mpr this) (by simp)
  | true =>
    rw [if_neg (by simp)]
    rw [hwk] at hwalk
    by_cases htl : tags.getD tailN false = false
    · rw [if_pos htl]
      constructor
      · intro h; exact absurd h (by simp)
      · intro h
        have := h tailN (le_refl tailN) htc
        rw [this] at htl
        exact absurd htl (by simp)
    · rw [if_neg htl]
      have htlT : tags.getD tailN false = true := by
        cases hb : tags.getD tailN false
        · exact absurd hb htl
        · rfl
      constructor
      · intro _ k hk1 hk2
        rcases Nat.eq_or_lt_of_le hk1 with hk | hk
        · rw [← hk]; exact htlT
        · exact hwalk.mp (by simp) k hk (by omega)
      · intro _; rfl

theorem executeNodeBreak_update_sound (tags : List Bool) (types : List NType)
    (prevL : List (Option Nat)) (n c tailN : Nat)
    (hw : wellLinkedPrev prevL n) (hc : c < n)
    (hty : types.getD c NType.read = NType.update)
    (hbrk : executeNodeBreak tags types prevL c tailN n = false) :
    ∀ k, tailN ≤ k → k < c → tags.getD k false = true := by
  by_cases htc : tailN < c
  · exact (executeNodeBreak_update_iff tags types prevL n c tailN hw hc htc hty).mp hbrk
  · intro k hk1 hk2; exfalso; omega

theorem executeNodeBreak_read_iff (tags : List Bool) (types : List NType)
    (prevL : List (Option Nat)) (n c tailN : Nat)
    (hw : wellLinkedPrev prevL n) (hc : c < n) (htc : tailN < c)
    (hty : types.getD c NType.read = NType.read) :
    executeNodeBreak tags types prevL c tailN n = false ↔
      ∀ k, tailN ≤ k → k < c → types.getD k NType.read = NType.update →
        tags.getD k false = true := by
  have hc0 : ¬ c = 0 := by omega
  have hp : prevL.getD c none = some (c - 1) := by rw [hw c hc]; simp [hc0]
  have hwalk := readWalk_true_iff tags types prevL n tailN hw n (c - 1) (by omega)
    (by omega) (by omega)
  have htyn : ¬ types.getD c NType.read = NType.update := by rw [hty]; simp
  unfold executeNodeBreak
  rw [if_neg htyn, hp]
  cases hwk : readWalk tags types prevL tailN n (some (c - 1)) with
  | false =>
    rw [if_pos rfl]
    constructor
    · intro h; exact absurd h (by simp)
    · intro h
      rw [hwk] at hwalk
      have : ∀ k, tailN < k → k ≤ c - 1 → types.getD k NType.read = NType.update →
          tags.getD k false = true := by
        intro k hk1 hk2 hku
        exact h k (by omega) (by omega) hku
      exact absurd (hwalk.mpr this) (by simp)
  | true =>
    rw [if_neg (by simp)]
    rw [hwk] at hwalk
    by_cases htl : types.getD tailN NType.read = NType.update ∧ tags.getD tailN false = false
    · rw [if_pos htl]
      constructor
      · intro h; exact absurd h (by simp)
      · intro h
        have := h tailN (le_refl tailN) htc htl.1
        rw [this] at htl
        exact absurd htl.2 (by simp)
    · rw [if_neg htl]
      constructor
      · intro _ k hk1 hk2 hku
        rcases Nat.eq_or_lt_of_le hk1 with hk | hk
        · subst hk
          cases hb : tags.getD tailN false
          · exact absurd ⟨hku, hb⟩ htl
          · rfl
        · exact hwalk.mp (by simp) k hk (by omega) hku
      · intro _; rfl

theorem freeRange_succ (nextL prevL : List (Option Nat)) (headN : Option Nat)
    (fuel : Nat) (cur : Option Nat) (fr : List Bool) :
    freeRange nextL prevL headN (fuel+1) cur fr =
      if cur = headN then
        match headN with
        | some h => some (fr.set h true)
        | none => some fr
      else
        match cur with
        | none => none
        | some c =>
          match nextL.getD c none with
          | none => none
          | some c2 =>
            match prevL.getD c2 none with
            | none => freeRange nextL prevL headN fuel (some c2) fr
            | some p => freeRange nextL prevL headN fuel (some c2) (fr.set p true) := rfl

theorem freeRange_run (n : Nat) :
    ∀ fuel t h fr, t ≤ h → h < n → List.length fr = n → h - t < fuel →
    ∃ fr', freeRange (bNextL n) (bPrevL n) (some h) fuel (some t) fr = some fr' ∧
      fr'.length = n ∧
      (∀ i, fr'.getD i false = true ↔ (fr.getD i false = true ∨ (t ≤ i ∧ i ≤ h))) := by
  intro fuel
  induction fuel with
  | zero => intro t h fr _ _ _ hf; exact absurd hf (Nat.not_lt_zero _)
  | succ fuel ih =>
    intro t h fr hth hhn hlen hfuel
    rw [freeRange_succ]
    by_cases hteq : t = h
    · subst hteq
      rw [if_pos rfl]
      refine ⟨fr.set t true, rfl, by simp [hlen], ?_⟩
      intro i
      by_cases hit : i = t
      · subst hit
        rw [getD_set_self (by omega)]
        simp
      · rw [getD_set_other (fun he => hit he.symm)]
        constructor
        · intro hfr; exact Or.inl hfr
        · intro hor
          rcases hor with hfr | hrange
          · exact hfr
          · exfalso; omega
    · have hne : ¬ (some t = some h) := by simp; omega
      rw [if_neg hne]
      have htn : t < n := by omega
      have ht1n : t + 1 < n := by omega
      have h1 : (bNextL n).getD t none = some (t + 1) := by
        rw [bNextL_getD htn, if_pos ht1n]
      have h2 : (bPrevL n).getD (t + 1) none = some t := by
        rw [bPrevL_getD ht1n]; simp
      simp only [h1, h2]
      have hlen' : (fr.set t true).length = n := by simp [hlen]
      obtain ⟨fr', heq, hlen'', hchar⟩ :=
        ih (t + 1) h (fr.set t true) (by omega) hhn hlen' (by omega)
      refine ⟨fr', heq, hlen'', ?_⟩
      intro i
      rw [hchar i]
      by_cases hit : i = t
      · subst hit
        rw [getD_set_self (by omega)]
        constructor
        · intro _; exact Or.inr ⟨le_refl i, hth⟩
        · intro _; exact Or.inl rfl
      · rw [getD_set_other (fun he => hit he.symm)]
        constructor
        · intro hor
          rcases hor with hfr | hrange
          · exact Or.inl hfr
          · exact Or.inr ⟨by omega, hrange.2⟩
        · intro hor
          rcases hor with hfr | hrange
          · exact Or.inl hfr
          · exact Or.inr ⟨by omega, hrange.2⟩

theorem segTail_mono (segs : List Seg)
    (hmono : ∀ j, j + 1 < segs.length →
      (segs.getD j default).tailNode < (segs.getD (j+1) default).tailNode) :
    ∀ a b, a ≤ b → b < segs.length →
      (segs.getD a default).tailNode ≤ (segs.getD b default).tailNode := by
  intro a b
  induction b with
  | zero =>
    intro hab _
    have ha : a = 0 := by omega
    rw [ha]
  | succ b ihb =>
    intro hab hb
    rcases Nat.eq_or_lt_of_le hab with h | h
    · rw [h]
    · exact le_trans (ihb (by omega) (by omega)) (le_of_lt (hmono b hb))

theorem tvFreeLoop_succ (nextL prevL : List (Option Nat)) (oracle : Nat → Bool)
    (fuel v : Nat) (segs : List Seg) (fr : List Bool) :
    tvFreeLoop nextL prevL oracle (fuel+1) v segs fr =
      match freeRange nextL prevL (segs.getD v default).headNode (fr.length + 1)
          (some (segs.getD v default).tailNode) fr with
      | none => none
      | some fr' =>
        match (segs.getD v default).nextSeg with
        | none => none
        | some nv =>
          if (segs.getD nv default).released then
            tvFreeLoop nextL prevL oracle fuel nv segs fr'
          else if oracle v then
            some (segs.set nv
              { segs.getD nv default with prevSeg := none, released := false }, fr')
          else tvFreeLoop nextL prevL oracle fuel nv segs fr' := rfl

theorem tvFreeLoop_run (n : Nat) (oracle : Nat → Bool) (segs : List Seg)
    (hnext : ∀ j, j + 1 < segs.length → (segs.getD j default).nextSeg = some (j + 1))
    (hhead : ∀ j, j + 1 < segs.length →
      (segs.getD j default).headNode = some ((segs.getD (j+1) default).tailNode - 1))
    (hmono : ∀ j, j + 1 < segs.length →
      (segs.getD j default).tailNode < (segs.getD (j+1) default).tailNode)
    (htn : ∀ j, j < segs.length → (segs.getD j default).tailNode < n) :
    ∀ fuel v s fr, List.length fr = n →
    v ≤ s → s + 1 < segs.length →
    (∀ j, v ≤ j → j < s → ((segs.getD (j+1) default).released = true ∨ oracle j = false)) →
    (segs.getD (s+1) default).released = false → oracle s = true →
    s - v < fuel →
    ∃ fr',
      tvFreeLoop (bNextL n) (bPrevL n) oracle fuel v segs fr =
        some (segs.set (s+1)
          { segs.getD (s+1) default with prevSeg := none, released := false }, fr') ∧
      fr'.length = n ∧
      (∀ i, fr'.getD i false = true ↔
        (fr.getD i false = true ∨
          ((segs.getD v default).tailNode ≤ i ∧
            i < (segs.getD (s+1) default).tailNode))) := by
  intro fuel
  induction fuel with
  | zero => intro v s fr _ _ _ _ _ _ hf; exact absurd hf (Nat.not_lt_zero _)
  | succ fuel ih =>
    intro v s fr hlen hvs hs1 hcont hrelS1 hors hfuel
    rw [tvFreeLoop_succ]
    have hv1 : v + 1 < segs.length := by omega
    have hheadv := hhead v hv1
    have hnextv := hnext v hv1
    have hmv := hmono v hv1
    have htv1 : (segs.getD (v+1) default).tailNode < n := htn (v+1) hv1
    obtain ⟨fr1, hfr1eq, hfr1len, hfr1char⟩ := freeRange_run n (fr.length + 1)
      (segs.getD v default).tailNode ((segs.getD (v+1) default).tailNode - 1) fr
      (by omega) (by omega) hlen (by omega)
    simp only [hheadv, hfr1eq, hnextv]
    by_cases hvse : v = s
    · subst hvse
      rw [if_neg (by rw [hrelS1]; simp), if_pos hors]
      refine ⟨fr1, rfl, hfr1len, ?_⟩
      intro i
      rw [hfr1char i]
      constructor
      · intro hor
        rcases hor with hfr | hrange
        · exact Or.inl hfr
        · exact Or.inr ⟨hrange.1, by omega⟩
      · intro hor
        rcases hor with hfr | hrange
        · exact Or.inl hfr
        · exact Or.inr ⟨hrange.1, by omega⟩
    · have hchain : (segs.getD (v+1) default).tailNode ≤ (segs.getD (s+1) default).tailNode :=
        segTail_mono segs hmono (v+1) (s+1) (by omega) hs1
      have hrec : ∃ fr',
          tvFreeLoop (bNextL n) (bPrevL n) oracle fuel (v+1) segs fr1 =
            some (segs.set (s+1)
              { segs.getD (s+1) default with prevSeg := none, released := false }, fr') ∧
          fr'.length = n ∧
          (∀ i, fr'.getD i false = true ↔
            (fr1.getD i false = true ∨
              ((segs.getD (v+1) default).tailNode ≤ i ∧
                i < (segs.getD (s+1) default).tailNode))) :=
        ih (v+1) s fr1 hfr1len (by omega) hs1
          (fun j hj1 hj2 => hcont j (by omega) hj2) hrelS1 hors (by omega)
      obtain ⟨fr', heq, hlen', hchar⟩ := hrec
      have hcombine : ∀ i, fr'.getD i false = true ↔
          (fr.getD i false = true ∨
            ((segs.getD v default).tailNode ≤ i ∧
              i < (segs.getD (s+1) default).tailNode)) := by
        intro i
        rw [hchar i, hfr1char i]
        constructor
        · intro hor
          rcases hor with (hfr | hr1) | hr2
          · exact Or.inl hfr
          · exact Or.inr ⟨hr1.1, by omega⟩
          · exact Or.inr ⟨by omega, hr2.2⟩
        · intro hor
          rcases hor with hfr | hr
          · exact Or.inl (Or.inl hfr)
          · by_cases hi : i ≤ (segs.getD (v+1) default).tailNode - 1
            · exact Or.inl (Or.inr ⟨hr.1, hi⟩)
            · exact Or.inr ⟨by omega, hr.2⟩
      have hcv := hcont v (le_refl v) (by omega)
      by_cases hrel1 : (segs.getD (v+1) default).released = true
      · rw [if_pos hrel1]
        exact ⟨fr', heq, hlen', hcombine⟩
      · have horF : oracle v = false := by
          rcases hcv with h | h
          · exact absurd h hrel1
          · exact h
        rw [if_neg hrel1, if_neg (by rw [horF]; simp)]
        exact ⟨fr', heq, hlen', hcombine⟩

theorem getD_append_left {α : Type} {l : List α} {b d : α} {i : Nat} (h : i < l.length) :
    (l ++ [b]).getD i d = l.getD i d := by
  simp [List.getD, List.getElem?_append, h]

theorem getD_append_right {α : Type} (l : List α) (b d : α) :
    (l ++ [b]).getD l.length d = b := by
  simp [List.getD]

theorem getD_of_le {α : Type} {l : List α} {i : Nat} (d : α) (h : l.length ≤ i) :
    l.getD i d = d := by
  simp [List.getD, List.getElem?_eq_none h]

theorem getD_set_append {α : Type} (l : List α) (k : Nat) (a b d : α) (j : Nat)
    (hk : k < l.length) :
    ((l.set k a) ++ [b]).getD j d =
      if j = l.length then b
      else if j = k then a
      else l.getD j d := by
  by_cases hj1 : j = l.length
  · subst hj1
    rw [if_pos rfl]
    have h2 : (l.set k a).length = l.length := by simp
    rw [← h2, getD_append_right]
  · rw [if_neg hj1]
    by_cases hj2 : j = k
    · subst hj2
      rw [if_pos rfl, getD_append_left (by simp; omega), getD_set_self hk]
    · rw [if_neg hj2]
      by_cases hj3 : j < l.length
      · rw [getD_append_left (by simp; omega), getD_set_other (fun he => hj2 he.symm)]
      · rw [getD_of_le d (by simp; omega), getD_of_le d (by omega)]

theorem bAdvance_getD (st : BState) (b : Nat) (hlen : 1 ≤ st.segs.length) (j : Nat) :
    (bAdvance st b).segs.getD j default =
      if j = st.segs.length then
        { prevSeg := some (st.segs.length - 1), released := false, nextSeg := none,
          headNode := none, tailNode := b, refcnt := 0 }
      else if j = st.segs.length - 1 then
        { st.segs.getD (st.segs.length - 1) default with
            nextSeg := some st.segs.length, headNode := (bPrevL st.n).getD b none }
      else st.segs.getD j default := by
  simp only [bAdvance]
  rw [getD_set_append st.segs (st.segs.length - 1) _ _ default j (by omega)]

theorem setRel_fields (segs : List Seg) (k : Nat) (bx : Bool) (j : Nat) :
    ((segs.set k { segs.getD k default with released := bx }).getD j default).tailNode
        = (segs.getD j default).tailNode ∧
    ((segs.set k { segs.getD k default with released := bx }).getD j default).nextSeg
        = (segs.getD j default).nextSeg ∧
    ((segs.set k { segs.getD k default with released := bx }).getD j default).headNode
        = (segs.getD j default).headNode ∧
    ((segs.set k { segs.getD k default with released := bx }).getD j default).prevSeg
        = (segs.getD j default).prevSeg := by
  by_cases hk : k < segs.length
  · by_cases hj : j = k
    · subst hj
      rw [getD_set_self hk]
      exact ⟨rfl, rfl, rfl, rfl⟩
    · rw [getD_set_other (fun he => hj he.symm)]
      exact ⟨rfl, rfl, rfl, rfl⟩
  · rw [List.set_eq_of_length_le (by omega)]
    exact ⟨rfl, rfl, rfl, rfl⟩

theorem setRel_rel (segs : List Seg) (k : Nat) (bx : Bool) (j : Nat) (hk : k < segs.length) :
    ((segs.set k { segs.getD k default with released := bx }).getD j default).released
      = if j = k then bx else (segs.getD j default).released := by
  by_cases hj : j = k
  · subst hj
    rw [if_pos rfl, getD_set_self hk]
  · rw [if_neg hj, getD_set_other (fun he => hj he.symm)]

theorem setPR_fields (segs : List Seg) (k : Nat) (sg0 : Seg) (j : Nat) :
    ((segs.set k { sg0 with prevSeg := none, released := false }).getD j default).tailNode
        = (if j = k ∧ k < segs.length then sg0.tailNode
           else (segs.getD j default).tailNode) ∧
    ((segs.set k { sg0 with prevSeg := none, released := false }).getD j default).nextSeg
        = (if j = k ∧ k < segs.length then sg0.nextSeg
           else (segs.getD j default).nextSeg) ∧
    ((segs.set k { sg0 with prevSeg := none, released := false }).getD j default).headNode
        = (if j = k ∧ k < segs.length then sg0.headNode
           else (segs.getD j default).headNode) ∧
    ((segs.set k { sg0 with prevSeg := none, released := false }).getD j default).prevSeg
        = (if j = k ∧ k < segs.length then none
           else (segs.getD j default).prevSeg) ∧
    ((segs.set k { sg0 with prevSeg := none, released := false }).getD j default).released
        = (if j = k ∧ k < segs.length then false
           else (segs.getD j default).released) := by
  by_cases hk : k < segs.length
  · by_cases hj : j = k
    · subst hj
      rw [getD_set_self hk]
      simp [hk]
    · rw [getD_set_other (fun he => hj he.symm)]
      simp [hj]
  · rw [List.set_eq_of_length_le (by omega)]
    simp [hk]

theorem segTailB_mono {st : BState} {f : Nat} (h : FullInv st f) (a b : Nat)
    (hab : a ≤ b) (hb : b < st.segs.length) : segTailB st a ≤ segTailB st b :=
  segTail_mono st.segs (fun j hj => h.hmono j hj) a b hab hb

theorem fullInv_init : FullInv bInit 0 := by
  refine ⟨?_, ?_, ?_, ?_, ?_, ?_, ?_, ?_, ?_, ?_, ?_, ?_, ?_, ?_, ?_, ?_, ?_, ?_⟩
  · decide
  · decide
  · decide
  · decide
  · intro j hj
    simp [bInit] at hj
  · decide
  · intro j hj
    simp [bInit] at hj
  · intro j hj
    simp [bInit] at hj
  · decide
  · decide
  · intro j hj
    have hj0 : j = 0 := by simp [bInit] at hj; omega
    subst hj0
    decide
  · intro j hj
    have hfalse : bInit.invoked.getD j false = false := by
      cases j with
      | zero => rfl
      | succ j => exact getD_of_le false (by simp [bInit])
    rw [hfalse] at hj
    exact absurd hj (by simp)
  · decide
  · intro i hi
    have hi0 : i = 0 := by simp [bInit] at hi; omega
    subst hi0
    decide
  · intro j hj
    exact absurd hj (by omega)
  · decide
  · decide
  · intro j h1 h2
    simp [bInit] at h2
    omega

theorem fullInv_insert {st : BState} {f : Nat} (h : FullInv st f) :
    FullInv { st with n := st.n + 1, freed := st.freed ++ [false] } f := by
  refine ⟨h.hseg, ?_, h.hinvLen, h.htail0, h.hmono, ?_, h.hnext, h.hhead, h.hnextLast,
    h.hheadLast, h.hrel, h.hretired, h.hf, ?_, h.hinvBelow, h.hinvAtF, h.hprevF,
    h.hprevAbove⟩
  · show (st.freed ++ [false]).length = st.n + 1
    simp [h.hfr]
  · show segTailB st (st.segs.length - 1) < st.n + 1
    have := h.hlast
    omega
  · intro i hi
    show (st.freed ++ [false]).getD i false = true ↔ i < segTailB st f
    by_cases hin : i < st.n
    · rw [getD_append_left (by rw [h.hfr]; omega)]
      exact h.hfreed i hin
    · have hieq : i = st.n := by
        have : i < st.n + 1 := hi
        omega
      subst hieq
      rw [← h.hfr, getD_append_right]
      constructor
      · intro hfalse
        exact absurd hfalse (by simp)
      · intro hlt
        exfalso
        have hle := segTailB_mono h f (st.segs.length - 1)
          (by have := h.hf; omega) (by have := h.hseg; omega)
        have := h.hlast
        rw [h.hfr] at hlt
        omega

theorem fullInv_advance {st : BState} {f : Nat} (h : FullInv st f) (b : Nat)
    (h1 : segTailB st (st.segs.length - 1) < b) (h2 : b < st.n) :
    FullInv (bAdvance st b) f := by
  have hL : 1 ≤ st.segs.length := h.hseg
  have hlen : (bAdvance st b).segs.length = st.segs.length + 1 := by
    simp [bAdvance]
  have hinvE : (bAdvance st b).invoked = st.invoked ++ [false] := rfl
  have hgd := bAdvance_getD st b hL
  have htailE : ∀ j, segTailB (bAdvance st b) j =
      if j = st.segs.length then b else segTailB st j := by
    intro j
    unfold segTailB
    rw [hgd j]
    by_cases hj1 : j = st.segs.length
    · rw [if_pos hj1, if_pos hj1]
    · rw [if_neg hj1, if_neg hj1]
      by_cases hj2 : j = st.segs.length - 1
      · rw [if_pos hj2]
        subst hj2
        rfl
      · rw [if_neg hj2]
  refine ⟨?_, ?_, ?_, ?_, ?_, ?_, ?_, ?_, ?_, ?_, ?_, ?_, ?_, ?_, ?_, ?_, ?_, ?_⟩
  · omega
  · show (bAdvance st b).freed.length = (bAdvance st b).n
    exact h.hfr
  · rw [hinvE, hlen]
    simp [h.hinvLen]
  · rw [htailE 0, if_neg (by omega)]
    exact h.htail0
  · intro j hj
    rw [hlen] at hj
    rw [htailE j, htailE (j+1)]
    by_cases hj1 : j + 1 = st.segs.length
    · rw [if_pos hj1, if_neg (by omega)]
      have hje : j = st.segs.length - 1 := by omega
      rw [hje]
      exact h1
    · rw [if_neg hj1, if_neg (by omega)]
      exact h.hmono j (by omega)
  · have he : (bAdvance st b).segs.length - 1 = st.segs.length := by omega
    rw [he, htailE, if_pos rfl]
    exact h2
  · intro j hj
    rw [hlen] at hj
    rw [hgd j]
    by_cases hj1 : j = st.segs.length
    · exact absurd hj1 (by omega)
    · rw [if_neg hj1]
      by_cases hj2 : j = st.segs.length - 1
      · rw [if_pos hj2]
        show some st.segs.length = some (j + 1)
        rw [hj2]
        congr 1
        omega
      · rw [if_neg hj2]
        exact h.hnext j (by omega)
  · intro j hj
    rw [hlen] at hj
    rw [hgd j, htailE (j+1)]
    by_cases hj1 : j = st.segs.length
    · exact absurd hj1 (by omega)
    · rw [if_neg hj1]
      by_cases hj2 : j = st.segs.length - 1
      · rw [if_pos hj2, if_pos (by omega)]
        show (bPrevL st.n).getD b none = some (b - 1)
        rw [bPrevL_getD h2, if_neg (by omega)]
      · rw [if_neg hj2, if_neg (by omega)]
        exact h.hhead j (by omega)
  · have he : (bAdvance st b).segs.length - 1 = st.segs.length := by omega
    rw [he, hgd, if_pos rfl]
  · have he : (bAdvance st b).segs.length - 1 = st.segs.length := by omega
    rw [he, hgd, if_pos rfl]
  · intro j hj
    rw [hlen] at hj
    rw [hgd j, hinvE]
    by_cases hj1 : j = st.segs.length
    · rw [if_pos hj1]
      subst hj1
      rw [← h.hinvLen, getD_append_right]
    · rw [if_neg hj1, getD_append_left (by rw [h.hinvLen]; omega)]
      by_cases hj2 : j = st.segs.length - 1
      · rw [if_pos hj2]
        subst hj2
        exact h.hrel (st.segs.length - 1) (by omega)
      · rw [if_neg hj2]
        exact h.hrel j (by omega)
  · intro j hj
    rw [hinvE] at hj
    rw [hlen]
    by_cases hjl : j < st.invoked.length
    · rw [getD_append_left hjl] at hj
      have := h.hretired j hj
      omega
    · by_cases hje : j = st.invoked.length
      · subst hje
        rw [getD_append_right] at hj
        exact absurd hj (by simp)
      · rw [getD_of_le false (by simp; omega)] at hj
        exact absurd hj (by simp)
  · have := h.hf
    omega
  · intro i hi
    rw [htailE f, if_neg (by have := h.hf; omega)]
    exact h.hfreed i hi
  · intro j hj
    rw [hinvE, getD_append_left (by rw [h.hinvLen]; have := h.hf; omega)]
    exact h.hinvBelow j hj
  · rw [hinvE, getD_append_left (by rw [h.hinvLen]; have := h.hf; omega)]
    exact h.hinvAtF
  · rw [hgd f, if_neg (by have := h.hf; omega)]
    by_cases hf2 : f = st.segs.length - 1
    · rw [if_pos hf2]
      subst hf2
      exact h.hprevF
    · rw [if_neg hf2]
      exact h.hprevF
  · intro j hjf hj
    rw [hlen] at hj
    rw [hgd j]
    by_cases hj1 : j = st.segs.length
    · rw [if_pos hj1]
      show some (st.segs.length - 1) = some (j - 1)
      rw [hj1]
    · rw [if_neg hj1]
      by_cases hj2 : j = st.segs.length - 1
      · rw [if_pos hj2]
        subst hj2
        exact h.hprevAbove (st.segs.length - 1) hjf (by omega)
      · rw [if_neg hj2]
        exact h.hprevAbove j hjf (by omega)

theorem bool_eq_false_of_ne_true {b : Bool} (h : ¬ b = true) : b = false := by
  cases b
  · rfl
  · exact absurd rfl h

theorem fullInv_reclaim {st : BState} {f : Nat} (h : FullInv st f) (k : Nat)
    (segs' : List Seg) (fr' : List Bool)
    (hk : k + 1 < st.segs.length)
    (hinvk : st.invoked.getD k false = false)
    (hres : tailVersionFree (bNextL st.n) (bPrevL st.n) (fun _ => true) k st.segs st.freed
      = some (segs', fr')) :
    ∃ f', FullInv { st with
                    segs := segs', freed := fr',
                    invoked := st.invoked.set k true } f' := by
  have hkl : k < st.segs.length := by omega
  have hrelk : (st.segs.getD k default).released = false := by
    apply bool_eq_false_of_ne_true
    intro hc
    rw [(h.hrel k hkl).mp hc] at hinvk
    exact absurd hinvk (by simp)
  unfold tailVersionFree at hres
  cases hp : (st.segs.getD k default).prevSeg with
  | some p =>
    rw [if_pos (Or.inl (by rw [hp]; simp))] at hres
    rw [Option.some.injEq, Prod.mk.injEq] at hres
    obtain ⟨hs', hf'⟩ := hres
    subst hs'
    subst hf'
    have hkf : f < k := by
      rcases Nat.lt_trichotomy k f with hlt | heq | hgt
      · exact absurd (h.hinvBelow k hlt) (by rw [hinvk]; simp)
      · subst heq
        rw [h.hprevF] at hp
        exact absurd hp (by simp)
      · exact hgt
    have htailE : ∀ j, (((st.segs.set k { st.segs.getD k default with
        released := true }).getD j default)).tailNode = segTailB st j :=
      fun j => (setRel_fields st.segs k true j).1
    have hnextE : ∀ j, (((st.segs.set k { st.segs.getD k default with
        released := true }).getD j default)).nextSeg = (st.segs.getD j default).nextSeg :=
      fun j => (setRel_fields st.segs k true j).2.1
    have hheadE : ∀ j, (((st.segs.set k { st.segs.getD k default with
        released := true }).getD j default)).headNode = (st.segs.getD j default).headNode :=
      fun j => (setRel_fields st.segs k true j).2.2.1
    have hprevE : ∀ j, (((st.segs.set k { st.segs.getD k default with
        released := true }).getD j default)).prevSeg = (st.segs.getD j default).prevSeg :=
      fun j => (setRel_fields st.segs k true j).2.2.2
    have hrelE : ∀ j, (((st.segs.set k { st.segs.getD k default with
        released := true }).getD j default)).released =
        if j = k then true else (st.segs.getD j default).released :=
      fun j => setRel_rel st.segs k true j hkl
    have hinvGetE : ∀ j, (st.invoked.set k true).getD j false =
        if j = k then true else st.invoked.getD j false := by
      intro j
      by_cases hj : j = k
      · subst hj
        rw [if_pos rfl, getD_set_self (by rw [h.hinvLen]; omega)]
      · rw [if_neg hj, getD_set_other (fun he => hj he.symm)]
    have hlenE : (st.segs.set k { st.segs.getD k default with
        released := true }).length = st.segs.length := by simp
    refine ⟨f, ?_, ?_, ?_, ?_, ?_, ?_, ?_, ?_, ?_, ?_, ?_, ?_, ?_, ?_, ?_, ?_, ?_, ?_⟩
    · show 1 ≤ (st.segs.set _ _).length
      rw [hlenE]
      exact h.hseg
    · exact h.hfr
    · show (st.invoked.set k true).length = (st.segs.set _ _).length
      rw [hlenE]
      simp [h.hinvLen]
    · show (((st.segs.set k _).getD 0 default)).tailNode = 0
      rw [htailE 0]
      exact h.htail0
    · intro j hj
      rw [hlenE] at hj
      show (((st.segs.set k _).getD j default)).tailNode <
        (((st.segs.set k _).getD (j+1) default)).tailNode
      rw [htailE j, htailE (j+1)]
      exact h.hmono j hj
    · show (((st.segs.set k _).getD ((st.segs.set k _).length - 1) default)).tailNode < st.n
      rw [hlenE, htailE]
      exact h.hlast
    · intro j hj
      rw [hlenE] at hj
      show (((st.segs.set k _).getD j default)).nextSeg = some (j + 1)
      rw [hnextE j]
      exact h.hnext j hj
    · intro j hj
      rw [hlenE] at hj
      show (((st.segs.set k _).getD j default)).headNode =
        some ((((st.segs.set k _).getD (j+1) default)).tailNode - 1)
      rw [hheadE j, htailE (j+1)]
      exact h.hhead j hj
    · show (((st.segs.set k _).getD ((st.segs.set k _).length - 1) default)).nextSeg = none
      rw [hlenE, hnextE]
      exact h.hnextLast
    · show (((st.segs.set k _).getD ((st.segs.set k _).length - 1) default)).headNode = none
      rw [hlenE, hheadE]
      exact h.hheadLast
    · intro j hj
      rw [hlenE] at hj
      show (((st.segs.set k _).getD j default)).released = true ↔
        (st.invoked.set k true).getD j false = true
      rw [hrelE j, hinvGetE j]
      by_cases hjk : j = k
      · rw [if_pos hjk, if_pos hjk]
      · rw [if_neg hjk, if_neg hjk]
        exact h.hrel j hj
    · intro j hj
      rw [hinvGetE j] at hj
      show j + 1 < (st.segs.set k _).length
      rw [hlenE]
      by_cases hjk : j = k
      · subst hjk
        exact hk
      · rw [if_neg hjk] at hj
        exact h.hretired j hj
    · show f < (st.segs.set k _).length
      rw [hlenE]
      exact h.hf
    · intro i hi
      show st.freed.getD i false = true ↔ i < (((st.segs.set k _).getD f default)).tailNode
      rw [htailE f]
      exact h.hfreed i hi
    · intro j hj
      rw [hinvGetE j]
      by_cases hjk : j = k
      · rw [if_pos hjk]
      · rw [if_neg hjk]
        exact h.hinvBelow j hj
    · rw [hinvGetE f, if_neg (by omega)]
      exact h.hinvAtF
    · show (((st.segs.set k _).getD f default)).prevSeg = none
      rw [hprevE f]
      exact h.hprevF
    · intro j hjf hj
      rw [hlenE] at hj
      show (((st.segs.set k _).getD j default)).prevSeg = some (j - 1)
      rw [hprevE j]
      exact h.hprevAbove j hjf hj
  | none =>
    rw [if_neg (by rw [hp, hrelk]; simp)] at hres
    have hkf : k = f := by
      rcases Nat.lt_trichotomy k f with hlt | heq | hgt
      · exact absurd (h.hinvBelow k hlt) (by rw [hinvk]; simp)
      · exact heq
      · rw [h.hprevAbove k hgt hkl] at hp
        exact absurd hp (by simp)
    subst hkf
    set segs1 := st.segs.set k { st.segs.getD k default with released := true } with hsegs1
    have hlen1 : segs1.length = st.segs.length := by rw [hsegs1]; simp
    have htailE1 : ∀ j, (segs1.getD j default).tailNode = segTailB st j :=
      fun j => (setRel_fields st.segs k true j).1
    have hnextE1 : ∀ j, (segs1.getD j default).nextSeg = (st.segs.getD j default).nextSeg :=
      fun j => (setRel_fields st.segs k true j).2.1
    have hheadE1 : ∀ j, (segs1.getD j default).headNode = (st.segs.getD j default).headNode :=
      fun j => (setRel_fields st.segs k true j).2.2.1
    have hprevE1 : ∀ j, (segs1.getD j default).prevSeg = (st.segs.getD j default).prevSeg :=
      fun j => (setRel_fields st.segs k true j).2.2.2
    have hrelE1 : ∀ j, (segs1.getD j default).released =
        if j = k then true else (st.segs.getD j default).released :=
      fun j => setRel_rel st.segs k true j hkl
    have hPtop : k < st.segs.length - 1 ∧
        st.invoked.getD (st.segs.length - 1) false = false := by
      constructor
      · omega
      · apply bool_eq_false_of_ne_true
        intro hc
        have := h.hretired (st.segs.length - 1) hc
        omega
    have hex : ∃ j, k < j ∧ st.invoked.getD j false = false := ⟨st.segs.length - 1, hPtop⟩
    set m := Nat.find hex with hm
    have hspec := Nat.find_spec hex
    have hmk : k < m := hspec.1
    have hminv : st.invoked.getD m false = false := hspec.2
    have hmle : m ≤ st.segs.length - 1 := Nat.find_le hPtop
    have hmlt : m < st.segs.length := by omega
    have hmlt1 : m < segs1.length := by rw [hlen1]; exact hmlt
    have hmid : ∀ j, k < j → j < m → st.invoked.getD j false = true := by
      intro j hj1 hj2
      by_cases hc : st.invoked.getD j false = true
      · exact hc
      · have hmin := Nat.find_min hex (show j < Nat.find hex by rw [← hm]; exact hj2)
        exact absurd ⟨hj1, bool_eq_false_of_ne_true hc⟩ hmin
    have htn1 : ∀ j, j < segs1.length → (segs1.getD j default).tailNode < st.n := by
      intro j hj
      rw [htailE1 j]
      rw [hlen1] at hj
      have ha := segTailB_mono h j (st.segs.length - 1) (by omega) (by omega)
      have hb := h.hlast
      omega
    have hrun := tvFreeLoop_run st.n (fun _ => true) segs1
      (by
        intro j hj
        rw [hlen1] at hj
        rw [hnextE1 j]
        exact h.hnext j hj)
      (by
        intro j hj
        rw [hlen1] at hj
        rw [hheadE1 j, htailE1 (j+1)]
        exact h.hhead j hj)
      (by
        intro j hj
        rw [hlen1] at hj
        rw [htailE1 j, htailE1 (j+1)]
        exact h.hmono j hj)
      htn1
      (st.segs.length + 1) k (m - 1) st.freed h.hfr (by omega) (by rw [hlen1]; omega)
      (by
        intro j hj1 hj2
        left
        rw [hrelE1 (j+1), if_neg (by omega)]
        exact (h.hrel (j+1) (by omega)).mpr (hmid (j+1) (by omega) (by omega)))
      (by
        have hmm : m - 1 + 1 = m := by omega
        rw [hmm, hrelE1 m, if_neg (by omega)]
        apply bool_eq_false_of_ne_true
        intro hc
        rw [(h.hrel m hmlt).mp hc] at hminv
        exact absurd hminv (by simp))
      rfl (by omega)
    obtain ⟨fr2, heq, hflen2, hchar⟩ := hrun
    have hmm : m - 1 + 1 = m := by omega
    rw [hmm] at heq hchar
    rw [heq] at hres
    rw [Option.some.injEq, Prod.mk.injEq] at hres
    obtain ⟨hs', hf'⟩ := hres
    subst hs'
    subst hf'
    have hpr := fun j => setPR_fields segs1 m (segs1.getD m default) j
    have htailE2 : ∀ j,
        ((segs1.set m { segs1.getD m default with prevSeg := none, released := false }).getD j default).tailNode = segTailB st j := by
      intro j
      rw [(hpr j).1]
      by_cases hj : j = m
      · rw [if_pos ⟨hj, hmlt1⟩, hj]
        exact htailE1 m
      · rw [if_neg (fun hx => hj hx.1)]
        exact htailE1 j
    have hnextE2 : ∀ j,
        ((segs1.set m { segs1.getD m default with prevSeg := none, released := false }).getD j default).nextSeg = (st.segs.getD j default).nextSeg := by
      intro j
      rw [(hpr j).2.1]
      by_cases hj : j = m
      · rw [if_pos ⟨hj, hmlt1⟩, hj]
        exact hnextE1 m
      · rw [if_neg (fun hx => hj hx.1)]
        exact hnextE1 j
    have hheadE2 : ∀ j,
        ((segs1.set m { segs1.getD m default with prevSeg := none, released := false }).getD j default).headNode = (st.segs.getD j default).headNode := by
      intro j
      rw [(hpr j).2.2.1]
      by_cases hj : j = m
      · rw [if_pos ⟨hj, hmlt1⟩, hj]
        exact hheadE1 m
      · rw [if_neg (fun hx => hj hx.1)]
        exact hheadE1 j
    have hprevE2 : ∀ j,
        ((segs1.set m { segs1.getD m default with prevSeg := none, released := false }).getD j default).prevSeg = (if j = m then none else (st.segs.getD j default).prevSeg) := by
      intro j
      rw [(hpr j).2.2.2.1]
      by_cases hj : j = m
      · rw [if_pos ⟨hj, hmlt1⟩, if_pos hj]
      · rw [if_neg (fun hx => hj hx.1), if_neg hj]
        exact hprevE1 j
    have hrelE2 : ∀ j,
        ((segs1.set m { segs1.getD m default with prevSeg := none, released := false }).getD j default).released = (if j = m then false else if j = k then true else (st.segs.getD j default).released) := by
      intro j
      rw [(hpr j).2.2.2.2]
      by_cases hj : j = m
      · rw [if_pos ⟨hj, hmlt1⟩, if_pos hj]
      · rw [if_neg (fun hx => hj hx.1), if_neg hj]
        exact hrelE1 j
    have hinvGetE : ∀ j, (st.invoked.set k true).getD j false =
        if j = k then true else st.invoked.getD j false := by
      intro j
      by_cases hj : j = k
      · subst hj
        rw [if_pos rfl, getD_set_self (by rw [h.hinvLen]; omega)]
      · rw [if_neg hj, getD_set_other (fun he => hj he.symm)]
    have hlen2 : (segs1.set m { segs1.getD m default with prevSeg := none, released := false }).length = st.segs.length := by
      rw [List.length_set, hlen1]
    refine ⟨m, ?_, ?_, ?_, ?_, ?_, ?_, ?_, ?_, ?_, ?_, ?_, ?_, ?_, ?_, ?_, ?_, ?_, ?_⟩
    · show 1 ≤ (segs1.set m _).length
      rw [hlen2]
      exact h.hseg
    · exact hflen2
    · show (st.invoked.set k true).length = (segs1.set m _).length
      rw [hlen2]
      simp [h.hinvLen]
    · show ((segs1.set m _).getD 0 default).tailNode = 0
      rw [htailE2 0]
      exact h.htail0
    · intro j hj
      rw [hlen2] at hj
      show ((segs1.set m _).getD j default).tailNode <
        ((segs1.set m _).getD (j+1) default).tailNode
      rw [htailE2 j, htailE2 (j+1)]
      exact h.hmono j hj
    · show ((segs1.set m _).getD ((segs1.set m _).length - 1) default).tailNode < st.n
      rw [hlen2, htailE2]
      exact h.hlast
    · intro j hj
      rw [hlen2] at hj
      show ((segs1.set m _).getD j default).nextSeg = some (j + 1)
      rw [hnextE2 j]
      exact h.hnext j hj
    · intro j hj
      rw [hlen2] at hj
      show ((segs1.set m _).getD j default).headNode =
        some (((segs1.set m _).getD (j+1) default).tailNode - 1)
      rw [hheadE2 j, htailE2 (j+1)]
      exact h.hhead j hj
    · show ((segs1.set m _).getD ((segs1.set m _).length - 1) default).nextSeg = none
      rw [hlen2, hnextE2]
      exact h.hnextLast
    · show ((segs1.set m _).getD ((segs1.set m _).length - 1) default).headNode = none
      rw [hlen2, hheadE2]
      exact h.hheadLast
    · intro j hj
      rw [hlen2] at hj
      show ((segs1.set m _).getD j default).released = true ↔
        (st.invoked.set k true).getD j false = true
      rw [hrelE2 j, hinvGetE j]
      by_cases hjm : j = m
      · rw [if_pos hjm, if_neg (show ¬ j = k by omega), hjm, hminv]
      · rw [if_neg hjm]
        by_cases hjk : j = k
        · rw [if_pos hjk, if_pos hjk]
        · rw [if_neg hjk, if_neg hjk]
          exact h.hrel j hj
    · intro j hj
      rw [hinvGetE j] at hj
      show j + 1 < (segs1.set m _).length
      rw [hlen2]
      by_cases hjk : j = k
      · subst hjk
        exact hk
      · rw [if_neg hjk] at hj
        exact h.hretired j hj
    · show m < (segs1.set m _).length
      rw [hlen2]
      exact hmlt
    · intro i hi
      show fr2.getD i false = true ↔ i < ((segs1.set m _).getD m default).tailNode
      rw [htailE2 m]
      have hchar2 := hchar i
      rw [htailE1 k, htailE1 m] at hchar2
      rw [hchar2, h.hfreed i hi]
      have hle := segTailB_mono h k m (by omega) hmlt
      omega
    · intro j hj
      rw [hinvGetE j]
      by_cases hjk : j = k
      · rw [if_pos hjk]
      · rw [if_neg hjk]
        rcases Nat.lt_trichotomy j k with hlt | heqj | hgt
        · exact h.hinvBelow j hlt
        · exact absurd heqj hjk
        · exact hmid j hgt hj
    · rw [hinvGetE m, if_neg (by omega)]
      exact hminv
    · show ((segs1.set m _).getD m default).prevSeg = none
      rw [hprevE2 m, if_pos rfl]
    · intro j hjf hj
      rw [hlen2] at hj
      show ((segs1.set m _).getD j default).prevSeg = some (j - 1)
      rw [hprevE2 j, if_neg (by omega)]
      exact h.hprevAbove j (by omega) hj

theorem cover_aux {st : BState} {f : Nat} (h : FullInv st f) (i : Nat) (hin : i < st.n) :
    ∀ d j0, st.segs.length - 1 - j0 ≤ d → f ≤ j0 → j0 < st.segs.length →
      segTailB st j0 ≤ i → ∃ j, f ≤ j ∧ j < st.segs.length ∧ segRange st j i := by
  intro d
  induction d with
  | zero =>
    intro j0 hd h1 h2 h3
    refine ⟨j0, h1, h2, ?_⟩
    unfold segRange
    constructor
    · exact h3
    · have he : j0 = st.segs.length - 1 := by omega
      rw [he, h.hheadLast]
      exact hin
  | succ d ihd =>
    intro j0 hd h1 h2 h3
    by_cases hj0 : j0 = st.segs.length - 1
    · refine ⟨j0, h1, h2, ?_⟩
      unfold segRange
      constructor
      · exact h3
      · rw [hj0, h.hheadLast]
        exact hin
    · have hj1 : j0 + 1 < st.segs.length := by omega
      by_cases hcase : i ≤ segTailB st (j0+1) - 1
      · refine ⟨j0, h1, h2, ?_⟩
        unfold segRange
        constructor
        · exact h3
        · rw [h.hhead j0 hj1]
          exact hcase
      · refine ihd (j0+1) (by omega) (by omega) hj1 ?_
        have := h.hmono j0 hj1
        omega

theorem fullInv_partition {st : BState} {f : Nat} (h : FullInv st f) : chainPartition st := by
  refine ⟨f, h.hf, ?_, ?_, ?_⟩
  · intro i hi
    constructor
    · intro hfree
      have hge : segTailB st f ≤ i := by
        by_cases hlt : i < segTailB st f
        · have htr := (h.hfreed i hi).mpr hlt
          rw [hfree] at htr
          exact absurd htr (by simp)
        · omega
      exact cover_aux h i hi st.segs.length f (by omega) (le_refl f) h.hf hge
    · rintro ⟨j, hj1, hj2, hr⟩
      apply bool_eq_false_of_ne_true
      intro hc
      have hlt := (h.hfreed i hi).mp hc
      have hle := segTailB_mono h f j hj1 hj2
      have htj : segTailB st j = (st.segs.getD j default).tailNode := rfl
      have hr1 := hr.1
      omega
  · intro j hjf hj1
    exact ⟨h.hhead j hj1, h.hmono j hj1⟩
  · intro j1 j2 i hf1 hlt hj2 hr1 hr2
    have hj11 : j1 + 1 < st.segs.length := by omega
    have hh := h.hhead j1 hj11
    have hle2 : i ≤ segTailB st (j1+1) - 1 := by
      have hr12 := hr1.2
      rw [hh] at hr12
      exact hr12
    have hm1 := h.hmono j1 hj11
    have hle := segTailB_mono h (j1+1) j2 (by omega) hj2
    have h21 : (st.segs.getD j2 default).tailNode ≤ i := hr2.1
    have he2 : segTailB st j2 = (st.segs.getD j2 default).tailNode := rfl
    omega

theorem fullInv_step {s s' : BState} (h : ∃ f, FullInv s f) (hstep : BStep s s') :
    ∃ f', FullInv s' f' := by
  obtain ⟨f, hf⟩ := h
  cases hstep with
  | insert => exact ⟨f, fullInv_insert hf⟩
  | advance b h1 h2 => exact ⟨f, fullInv_advance hf b h1 h2⟩
  | reclaim k segs' fr' hk hinv hres => exact fullInv_reclaim hf k segs' fr' hk hinv hres

theorem fullInv_reach {s : BState} (h : BReach s) : ∃ f, FullInv s f := by
  induction h with
  | init => exact ⟨0, fullInv_init⟩
  | step _ hstep ih => exact fullInv_step ih hstep

theorem claimChain_succ (segs : List Seg) (oracle : Nat → Bool) (fuel v : Nat) :
    claimChain segs oracle (fuel+1) v =
      match (segs.getD v default).nextSeg with
      | none => [v]
      | some nv =>
        if (segs.getD nv default).released = true ∨ oracle v = false then
          v :: claimChain segs oracle fuel nv
        else [v] := rfl

theorem claimChain_run (segs : List Seg) (oracle : Nat → Bool)
    (hnext : ∀ j, j + 1 < segs.length → (segs.getD j default).nextSeg = some (j + 1)) :
    ∀ fuel v s, v ≤ s → s + 1 < segs.length →
    (∀ j, v ≤ j → j < s → ((segs.getD (j+1) default).released = true ∨ oracle j = false)) →
    (segs.getD (s+1) default).released = false → oracle s = true →
    s - v < fuel →
    claimChain segs oracle fuel v = List.range' v (s + 1 - v) := by
  intro fuel
  induction fuel with
  | zero => intro v s _ _ _ _ _ hf; exact absurd hf (Nat.not_lt_zero _)
  | succ fuel ih =>
    intro v s hvs hs1 hcont hrel hor hfuel
    rw [claimChain_succ]
    simp only [hnext v (by omega)]
    by_cases hvse : v = s
    · subst hvse
      rw [if_neg (by rw [hrel, hor]; simp)]
      have : v + 1 - v = 1 := by omega
      rw [this]
      rfl
    · rw [if_pos (hcont v (le_refl v) (by omega))]
      rw [ih (v+1) s (by omega) hs1 (fun j h1 h2 => hcont j (by omega) h2) hrel hor (by omega)]
      have h1 : s + 1 - v = (s - v) + 1 := by omega
      have h2 : s + 1 - (v + 1) = s - v := by omega
      rw [h1, h2]
      rfl

theorem claimFreedAt_nil (segs : List Seg) (i : Nat) :
    claimFreedAt segs [] i = false := rfl

theorem claimFreedAt_cons (segs : List Seg) (j : Nat) (l : List Nat) (i : Nat) :
    claimFreedAt segs (j :: l) i =
      ((decide ((segs.getD j default).tailNode ≤ i) &&
        match (segs.getD j default).headNode with
        | some h => decide (i ≤ h)
        | none => false) || claimFreedAt segs l i) := by
  simp [claimFreedAt]

theorem claimFreedAt_range (segs : List Seg)
    (hhead : ∀ j, j + 1 < segs.length →
      (segs.getD j default).headNode = some ((segs.getD (j+1) default).tailNode - 1))
    (hmono : ∀ j, j + 1 < segs.length →
      (segs.getD j default).tailNode < (segs.getD (j+1) default).tailNode) :
    ∀ cnt v, v + cnt < segs.length →
    ∀ i, (claimFreedAt segs (List.range' v cnt) i = true ↔
      ((segs.getD v default).tailNode ≤ i ∧ i < (segs.getD (v + cnt) default).tailNode)) := by
  intro cnt
  induction cnt with
  | zero =>
    intro v _ i
    rw [show List.range' v 0 = [] from rfl, claimFreedAt_nil, show v + 0 = v from rfl]
    constructor
    · intro hc; exact absurd hc (by simp)
    · intro hc; exfalso; omega
  | succ cnt ih =>
    intro v hv i
    rw [show List.range' v (cnt+1) = v :: List.range' (v+1) cnt from rfl, claimFreedAt_cons]
    have hv1 : v + 1 < segs.length := by omega
    rw [hhead v hv1]
    have hmv := hmono v hv1
    have hrest := ih (v+1) (by omega) i
    have hchain : (segs.getD (v+1) default).tailNode ≤
        (segs.getD (v + (cnt+1)) default).tailNode := by
      have := segTail_mono segs hmono (v+1) (v + (cnt+1)) (by omega) hv
      exact this
    have heq : v + 1 + cnt = v + (cnt + 1) := by omega
    rw [heq] at hrest
    constructor
    · intro hc
      rw [Bool.or_eq_true] at hc
      rcases hc with hc | hc
      · rw [Bool.and_eq_true] at hc
        have h1 : (segs.getD v default).tailNode ≤ i := of_decide_eq_true hc.1
        have h2 : i ≤ (segs.getD (v+1) default).tailNode - 1 := of_decide_eq_true hc.2
        exact ⟨h1, by omega⟩
      · have hr := hrest.mp hc
        obtain ⟨hr1, hr2⟩ := hr
        exact ⟨by omega, hr2⟩
    · intro hc
      rw [Bool.or_eq_true]
      by_cases hsplit : i < (segs.getD (v+1) default).tailNode
      · left
        rw [Bool.and_eq_true]
        exact ⟨decide_eq_true hc.1, decide_eq_true (show i ≤ _ by omega)⟩
      · right
        exact hrest.mpr ⟨by omega, hc.2⟩

theorem step_eq {st : MState} {tid : Nat} {t : TState}
    (h : st.threads.get? tid = some t) :
    step st tid =
      { (stepT st t).1 with threads := (stepT st t).1.threads.set tid (stepT st t).2 } := by
  unfold step
  rw [h]

theorem stepT_threads (st : MState) (t : TState) : (stepT st t).1.threads = st.threads := by
  unfold stepT
  dsimp only
  repeat' split
  all_goals rfl

theorem threadAt_step {st : MState} {tid : Nat} {t : TState}
    (h : st.threads.get? tid = some t) :
    threadAt (step st tid) tid = (stepT st t).2 := by
  have hlt : tid < st.threads.length := by
    rcases List.get?_eq_some.mp h with ⟨hl, _⟩
    exact hl
  rw [step_eq h]
  show ((stepT st t).1.threads.set tid (stepT st t).2).getD tid default = _
  rw [stepT_threads]
  exact getD_set_self hlt

/-- Claim C1 (code bug): two UPDATE callbacks can run concurrently on the
same engine.  After the interleaving c1sched, thread 1 is inside the
callback of UPDATE node 1 and thread 3 is inside the callback of UPDATE
node 2 at the same time, both nodes still PENDING.  The root cause is
insert_node_and_execute publishing the forward link prev_head->next before
the back link node->prev (src/aru.c:398-399): thread 3 reached node 2
through the forward link while node 2's back link was still NULL, so the
readiness walk of execute_node saw no predecessor at all and passed, and
thread 3 started node 2 while node 1's callback was still running.  This
refutes the claimed disjointness of UPDATE execution intervals. -/
theorem aru_c1_concurrent_update_callbacks :
    runningOn c1final 1 1 ∧ runningOn c1final 3 2 ∧
    c1final.types.getD 1 NType.read = NType.update ∧
    c1final.types.getD 2 NType.read = NType.update ∧
    c1final.tags.getD 1 false = false ∧
    c1final.tags.getD 2 false = false := by
  decide

/-- Claim C4 (code bug): when the first submission on a fresh engine is an
UPDATE, no submitted callback is ever invoked.  c4sched runs three whole
submissions (UPDATE, UPDATE, READ) to completion one after the other: every
traversal starts at the tail node, an UPDATE whose own PENDING tag can
never pass the tail check of src/aru.c:257, so execute_node returns BREAK
at once, each submission returns, and the engine quiesces with every node
PENDING, no trylock ever taken, and zero callback invocations, against the
claimed exactly-once execution. -/
theorem aru_c4_first_update_never_executed :
    c4final.threads.map (fun t => t.pc) = [PC.finished, PC.finished, PC.finished] ∧
    c4final.tags = [false, false, false] ∧
    c4final.locks = [false, false, false] ∧
    c4final.numNodes = 3 := by
  decide

/-- Claim C2: during the execute-from-tail traversal a PENDING UPDATE node c
is executed only when every node from the acquired segment's tail node
(inclusive) up to c (exclusive) is DONE, and when one of those predecessors
is not DONE the traversal stops entirely: the machine moves the thread
straight past the loop to the tail-adjustment test and changes nothing
else.  The readiness walk proceeds from the node's back link toward the
tail node (updWalk inside executeNodeBreak).  Stated over a log whose back
links are fully written.  When c is the tail node itself the code never
executes it at all, so the first conjunct holds vacuously there (that
corner is claim C4's bug). -/
theorem aru_c2_update_readiness (st : MState) (tid : Nat) (t : TState) (c tailN : Nat)
    (hth : st.threads.get? tid = some t)
    (hpc : t.pc = PC.travCheck)
    (hcur : t.cursor = some c)
    (htail : (st.segs.getD t.tailSeg default).tailNode = tailN)
    (hpend : st.tags.getD c false = false)
    (hty : st.types.getD c NType.read = NType.update)
    (hwl : wellLinkedPrev st.prevL st.numNodes)
    (hc : c < st.numNodes) :
    ((threadAt (step st tid) tid).pc = PC.running →
      ∀ k, tailN ≤ k → k < c → st.tags.getD k false = true) ∧
    ((∃ k, tailN ≤ k ∧ k < c ∧ st.tags.getD k false = false) →
      step st tid =
        { st with threads := st.threads.set tid { t with pc := PC.adjustTest } }) := by
  constructor
  · intro hrun k hk1 hk2
    by_cases hbrk : executeNodeBreak st.tags st.types st.prevL c tailN st.numNodes = true
    · exfalso
      rw [threadAt_step hth] at hrun
      have hst : (stepT st t).2 = { t with pc := PC.adjustTest } := by
        simp only [stepT, hpc, hcur, htail, hpend, hbrk, eq_self_iff_true, if_true]
      rw [hst] at hrun
      simp at hrun
    · exact executeNodeBreak_update_sound st.tags st.types st.prevL st.numNodes c tailN
        hwl hc hty (bool_eq_false_of_ne_true hbrk) k hk1 hk2
  · rintro ⟨k, hk1, hk2, hkp⟩
    have hbrk : executeNodeBreak st.tags st.types st.prevL c tailN st.numNodes = true := by
      cases hb : executeNodeBreak st.tags st.types st.prevL c tailN st.numNodes
      · exfalso
        have hdone := executeNodeBreak_update_sound st.tags st.types st.prevL st.numNodes
          c tailN hwl hc hty hb k hk1 hk2
        rw [hdone] at hkp
        exact absurd hkp (by simp)
      · rfl
    rw [step_eq hth]
    have hst1 : (stepT st t).1 = st := by
      simp only [stepT, hpc, hcur, htail, hpend, hbrk, eq_self_iff_true, if_true]
    have hst2 : (stepT st t).2 = { t with pc := PC.adjustTest } := by
      simp only [stepT, hpc, hcur, htail, hpend, hbrk, eq_self_iff_true, if_true]
    rw [hst1, hst2]

/-- Witness for claim C2 on a concrete two-node engine: node 0 is a DONE
UPDATE, node 1 a PENDING UPDATE under the cursor. -/
theorem aru_c2_update_readiness_witness :
    ((threadAt (step c2wit 0) 0).pc = PC.running →
      ∀ k, 0 ≤ k → k < 1 → c2wit.tags.getD k false = true) ∧
    ((∃ k, 0 ≤ k ∧ k < 1 ∧ c2wit.tags.getD k false = false) →
      step c2wit 0 =
        { c2wit with threads := c2wit.threads.set 0 { c2witT with pc := PC.adjustTest } }) :=
  aru_c2_update_readiness c2wit 0 c2witT 1 0 rfl rfl rfl rfl rfl rfl (by decide) (by decide)

/-- Claim C3: during the execute-from-tail traversal a PENDING READ node c is
ready exactly when every UPDATE predecessor from the segment's tail node
(inclusive) up to c (exclusive) is DONE — non-UPDATE predecessors are
ignored — and when ready and unclaimed it is executed (the thread takes the
trylock and enters the callback); if some UPDATE predecessor in that range
is not DONE, the traversal stops entirely.  The back-link readiness walk
stops at a null back pointer and at the tail node (the last two conjuncts).
Stated over a log whose back links are fully written, for a node strictly
beyond the tail node. -/
theorem aru_c3_read_readiness (st : MState) (tid : Nat) (t : TState) (c tailN : Nat)
    (hth : st.threads.get? tid = some t)
    (hpc : t.pc = PC.travCheck)
    (hcur : t.cursor = some c)
    (htail : (st.segs.getD t.tailSeg default).tailNode = tailN)
    (hpend : st.tags.getD c false = false)
    (hty : st.types.getD c NType.read = NType.read)
    (hwl : wellLinkedPrev st.prevL st.numNodes)
    (hc : c < st.numNodes)
    (htc : tailN < c) :
    (executeNodeBreak st.tags st.types st.prevL c tailN st.numNodes = false ↔
      ∀ k, tailN ≤ k → k < c → st.types.getD k NType.read = NType.update →
        st.tags.getD k false = true) ∧
    (executeNodeBreak st.tags st.types st.prevL c tailN st.numNodes = false →
      st.locks.getD c false = false →
      threadAt (step st tid) tid = { t with pc := PC.running } ∧
      (step st tid).locks = st.locks.set c true) ∧
    ((∃ k, tailN ≤ k ∧ k < c ∧ st.types.getD k NType.read = NType.update ∧
        st.tags.getD k false = false) →
      step st tid =
        { st with threads := st.threads.set tid { t with pc := PC.adjustTest } }) ∧
    (∀ fuel, readWalk st.tags st.types st.prevL tailN fuel none = true) ∧
    (∀ fuel, readWalk st.tags st.types st.prevL tailN (fuel+1) (some tailN) = true) := by
  have hiff := executeNodeBreak_read_iff st.tags st.types st.prevL st.numNodes c tailN
    hwl hc htc hty
  refine ⟨hiff, ?_, ?_, ?_, ?_⟩
  · intro hbrkF hlock
    constructor
    · rw [threadAt_step hth]
      simp only [stepT, hpc, hcur, htail, hpend, hbrkF, hlock, eq_self_iff_true, if_true,
        Bool.false_eq_true, if_false]
    · rw [step_eq hth]
      have hst1 : (stepT st t).1 = { st with locks := st.locks.set c true } := by
        simp only [stepT, hpc, hcur, htail, hpend, hbrkF, hlock, eq_self_iff_true, if_true,
          Bool.false_eq_true, if_false]
      rw [hst1]
  · rintro ⟨k, hk1, hk2, hku, hkp⟩
    have hbrk : executeNodeBreak st.tags st.types st.prevL c tailN st.numNodes = true := by
      cases hb : executeNodeBreak st.tags st.types st.prevL c tailN st.numNodes
      · exfalso
        have hdone := hiff.mp hb k hk1 hk2 hku
        rw [hdone] at hkp
        exact absurd hkp (by simp)
      · rfl
    rw [step_eq hth]
    have hst1 : (stepT st t).1 = st := by
      simp only [stepT, hpc, hcur, htail, hpend, hbrk, eq_self_iff_true, if_true]
    have hst2 : (stepT st t).2 = { t with pc := PC.adjustTest } := by
      simp only [stepT, hpc, hcur, htail, hpend, hbrk, eq_self_iff_true, if_true]
    rw [hst1, hst2]
  · intro fuel
    cases fuel <;> rfl
  · intro fuel
    rw [readWalk_succ, if_pos rfl]

/-- Witness for claim C3 on a concrete two-node engine: node 0 is a DONE
UPDATE, node 1 a PENDING READ under the cursor. -/
theorem aru_c3_read_readiness_witness :
    (executeNodeBreak c3wit.tags c3wit.types c3wit.prevL 1 0 c3wit.numNodes = false ↔
      ∀ k, 0 ≤ k → k < 1 → c3wit.types.getD k NType.read = NType.update →
        c3wit.tags.getD k false = true) ∧
    (executeNodeBreak c3wit.tags c3wit.types c3wit.prevL 1 0 c3wit.numNodes = false →
      c3wit.locks.getD 1 false = false →
      threadAt (step c3wit 0) 0 = { c3witT with pc := PC.running } ∧
      (step c3wit 0).locks = c3wit.locks.set 1 true) ∧
    ((∃ k, 0 ≤ k ∧ k < 1 ∧ c3wit.types.getD k NType.read = NType.update ∧
        c3wit.tags.getD k false = false) →
      step c3wit 0 =
        { c3wit with threads := c3wit.threads.set 0 { c3witT with pc := PC.adjustTest } }) ∧
    (∀ fuel, readWalk c3wit.tags c3wit.types c3wit.prevL 0 fuel none = true) ∧
    (∀ fuel, readWalk c3wit.tags c3wit.types c3wit.prevL 0 (fuel+1) (some 0) = true) :=
  aru_c3_read_readiness c3wit 0 c3witT 1 0 rfl rfl rfl rfl rfl rfl (by decide) (by decide)
    (by decide)

/-- Claim C5: at the end of a submission's traversal the tail is advanced if
and only if the submitter captured the tail-move right and the traversal
walked past at least one node, the last prev node differing from the
segment's tail node (src/aru.c:345-346, first two conjuncts give the two
directions).  The advancement itself (adjust_tail, src/aru.c:207-224)
creates a new segment whose tail node is the last node the traversal
visited, back pointer to the old segment, clear release bit, no successor
and NULL head node, and installs it in the gate, retiring the old segment —
while the old segment's head node is still untouched at that point (third
conjunct); it then links the old segment's forward pointer to the new
segment (fourth conjunct), and only after installation writes the old
segment's head node as the new boundary's back link (fifth conjunct). -/
theorem aru_c5_tail_advancement (st : MState) (tid : Nat) (t : TState)
    (hth : st.threads.get? tid = some t) :
    (t.pc = PC.adjustTest → t.captured = true →
      t.prevNode ≠ (st.segs.getD t.tailSeg default).tailNode →
      step st tid = { st with threads := st.threads.set tid { t with pc := PC.adjInstall } }) ∧
    (t.pc = PC.adjustTest →
      (t.captured = false ∨ t.prevNode = (st.segs.getD t.tailSeg default).tailNode) →
      step st tid = { st with threads := st.threads.set tid { t with pc := PC.releaseTail } }) ∧
    (t.pc = PC.adjInstall →
      (step st tid).segs = st.segs ++
        [{ prevSeg := some t.tailSeg, released := false, nextSeg := none,
           headNode := none, tailNode := t.prevNode, refcnt := 0 }] ∧
      (step st tid).installed = st.segs.length ∧
      ((step st tid).segs.getD t.tailSeg default).headNode =
        (st.segs.getD t.tailSeg default).headNode ∧
      threadAt (step st tid) tid = { t with newSeg := st.segs.length, pc := PC.adjSetNext }) ∧
    (t.pc = PC.adjSetNext →
      (step st tid).segs = st.segs.set t.tailSeg
        { st.segs.getD t.tailSeg default with nextSeg := some t.newSeg } ∧
      (step st tid).installed = st.installed ∧
      threadAt (step st tid) tid = { t with pc := PC.adjSetHead }) ∧
    (t.pc = PC.adjSetHead →
      (step st tid).segs = st.segs.set t.tailSeg
        { st.segs.getD t.tailSeg default with
            headNode := st.prevL.getD ((st.segs.getD t.newSeg default).tailNode) none } ∧
      threadAt (step st tid) tid = { t with pc := PC.releaseTail }) := by
  refine ⟨?_, ?_, ?_, ?_, ?_⟩
  · intro hpc5 hcap hne
    rw [step_eq hth]
    have hst : stepT st t = (st, { t with pc := PC.adjInstall }) := by
      simp only [stepT, hpc5]
      rw [if_pos ⟨hcap, hne⟩]
    rw [hst]
  · intro hpc5 hor
    rw [step_eq hth]
    have hst : stepT st t = (st, { t with pc := PC.releaseTail }) := by
      simp only [stepT, hpc5]
      have hcond : ¬(t.captured = true ∧
          ¬ t.prevNode = (st.segs.getD t.tailSeg default).tailNode) := by
        rintro ⟨h1, h2⟩
        rcases hor with hcapF | hpe
        · rw [hcapF] at h1
          exact absurd h1 (by simp)
        · exact h2 hpe
      rw [if_neg hcond]
    rw [hst]
  · intro hpc5
    have hst : stepT st t =
        ({ st with
           segs := st.segs ++
             [{ prevSeg := some t.tailSeg, released := false, nextSeg := none,
                headNode := none, tailNode := t.prevNode, refcnt := 0 }],
           installed := st.segs.length },
         { t with newSeg := st.segs.length, pc := PC.adjSetNext }) := by
      simp only [stepT, hpc5]
    have hsegsE : (step st tid).segs = st.segs ++
        [{ prevSeg := some t.tailSeg, released := false, nextSeg := none,
           headNode := none, tailNode := t.prevNode, refcnt := 0 }] := by
      rw [step_eq hth, hst]
    refine ⟨hsegsE, ?_, ?_, ?_⟩
    · rw [step_eq hth, hst]
    · rw [hsegsE]
      by_cases hlt : t.tailSeg < st.segs.length
      · rw [getD_append_left hlt]
      · by_cases heq2 : t.tailSeg = st.segs.length
        · rw [heq2, getD_append_right, getD_of_le default (le_refl _)]
          rfl
        · rw [getD_of_le default (by simp; omega), getD_of_le default (by omega)]
    · rw [threadAt_step hth, hst]
  · intro hpc5
    have hst : stepT st t =
        ({ st with segs := st.segs.set t.tailSeg { st.segs.getD t.tailSeg default with nextSeg := some t.newSeg } },
         { t with pc := PC.adjSetHead }) := by
      simp only [stepT, hpc5]
    refine ⟨?_, ?_, ?_⟩
    · rw [step_eq hth, hst]
    · rw [step_eq hth, hst]
    · rw [threadAt_step hth, hst]
  · intro hpc5
    have hst : stepT st t =
        ({ st with segs := st.segs.set t.tailSeg { st.segs.getD t.tailSeg default with headNode := st.prevL.getD ((st.segs.getD t.newSeg default).tailNode) none } },
         { t with pc := PC.releaseTail }) := by
      simp only [stepT, hpc5]
    refine ⟨?_, ?_⟩
    · rw [step_eq hth, hst]
    · rw [threadAt_step hth, hst]

/-- Witness for claim C5 on a concrete engine whose mover (c5witT) is about
to install the new tail segment with boundary node 1. -/
theorem aru_c5_tail_advancement_witness :
    (c5witT.pc = PC.adjustTest → c5witT.captured = true →
      c5witT.prevNode ≠ (c5wit.segs.getD c5witT.tailSeg default).tailNode →
      step c5wit 0 = { c5wit with threads := c5wit.threads.set 0 { c5witT with pc := PC.adjInstall } }) ∧
    (c5witT.pc = PC.adjustTest →
      (c5witT.captured = false ∨ c5witT.prevNode = (c5wit.segs.getD c5witT.tailSeg default).tailNode) →
      step c5wit 0 = { c5wit with threads := c5wit.threads.set 0 { c5witT with pc := PC.releaseTail } }) ∧
    (c5witT.pc = PC.adjInstall →
      (step c5wit 0).segs = c5wit.segs ++
        [{ prevSeg := some c5witT.tailSeg, released := false, nextSeg := none,
           headNode := none, tailNode := c5witT.prevNode, refcnt := 0 }] ∧
      (step c5wit 0).installed = c5wit.segs.length ∧
      ((step c5wit 0).segs.getD c5witT.tailSeg default).headNode =
        (c5wit.segs.getD c5witT.tailSeg default).headNode ∧
      threadAt (step c5wit 0) 0 = { c5witT with newSeg := c5wit.segs.length, pc := PC.adjSetNext }) ∧
    (c5witT.pc = PC.adjSetNext →
      (step c5wit 0).segs = c5wit.segs.set c5witT.tailSeg
        { c5wit.segs.getD c5witT.tailSeg default with nextSeg := some c5witT.newSeg } ∧
      (step c5wit 0).installed = c5wit.installed ∧
      threadAt (step c5wit 0) 0 = { c5witT with pc := PC.adjSetHead }) ∧
    (c5witT.pc = PC.adjSetHead →
      (step c5wit 0).segs = c5wit.segs.set c5witT.tailSeg
        { c5wit.segs.getD c5witT.tailSeg default with
            headNode := c5wit.prevL.getD ((c5wit.segs.getD c5witT.newSeg default).tailNode) none } ∧
      threadAt (step c5wit 0) 0 = { c5witT with pc := PC.releaseTail }) :=
  aru_c5_tail_advancement c5wit 0 c5witT rfl

/-- Claim C6: in every state of the tail-segment chain reachable from the
first submission through submissions, tail advancements (adjust_tail) and
reclamation steps (aru_tail_version_free invocations), the chain of
segments partitions the not-yet-freed nodes into contiguous, disjoint
ranges whose union is exactly the currently reachable log.  The transition
system's advance and reclaim steps apply the embedded adjust_tail and
aru_tail_version_free; back links are the fully written ones (the
half-linked race window belongs to claim C1). -/
theorem aru_c6_chain_partition (st : BState) (h : BReach st) : chainPartition st := by
  obtain ⟨f, hf⟩ := fullInv_reach h
  exact fullInv_partition hf

/-- Witness for claim C6 at the initial chain state. -/
theorem aru_c6_chain_partition_witness : chainPartition bInit :=
  aru_c6_chain_partition bInit BReach.init

/-- Claim C7: behaviour of the destructor aru_tail_version_free on a
well-formed chain, invoked on a segment whose released bit is still clear
(the gate invokes it once per retired segment).  First conjunct: when the
old back-pointer word is non-null the run sets the released bit and returns
without freeing any node.  Second conjunct: when the back pointer is null
the run frees exactly the nodes of the claim-side chain claimChain — the
consecutive segments reached by continuing while the successor's released
bit is set or the compare-and-swap fails — each from its tail node to its
head node inclusive (claimFreedAt), sets the released bit of the starting
segment, and stops by swinging the back pointer of the first successor
whose bit is clear and whose compare-and-swap succeeds to null.  s marks
that stopping point. -/
theorem aru_c7_destructor (n : Nat) (oracle : Nat → Bool) (segs : List Seg)
    (fr : List Bool) (v : Nat)
    (hfr : fr.length = n)
    (hnext : ∀ j, j + 1 < segs.length → (segs.getD j default).nextSeg = some (j + 1))
    (hhead : ∀ j, j + 1 < segs.length →
      (segs.getD j default).headNode = some ((segs.getD (j+1) default).tailNode - 1))
    (hmono : ∀ j, j + 1 < segs.length →
      (segs.getD j default).tailNode < (segs.getD (j+1) default).tailNode)
    (htn : ∀ j, j < segs.length → (segs.getD j default).tailNode < n)
    (hv : v < segs.length)
    (hrelv : (segs.getD v default).released = false) :
    (∀ p, (segs.getD v default).prevSeg = some p →
      tailVersionFree (bNextL n) (bPrevL n) oracle v segs fr =
        some (segs.set v { segs.getD v default with released := true }, fr)) ∧
    ((segs.getD v default).prevSeg = none →
      ∀ s, v ≤ s → s + 1 < segs.length →
      (∀ j, v ≤ j → j < s →
        ((segs.getD (j+1) default).released = true ∨ oracle j = false)) →
      (segs.getD (s+1) default).released = false → oracle s = true →
      claimChain segs oracle (segs.length + 1) v = List.range' v (s + 1 - v) ∧
      ∃ fr',
        tailVersionFree (bNextL n) (bPrevL n) oracle v segs fr =
          some ((segs.set v { segs.getD v default with released := true }).set (s+1)
            { segs.getD (s+1) default with prevSeg := none, released := false }, fr') ∧
        (∀ i, fr'.getD i false = true ↔
          (fr.getD i false = true ∨
            claimFreedAt segs (List.range' v (s + 1 - v)) i = true))) := by
  constructor
  · intro p hp
    unfold tailVersionFree
    rw [if_pos (Or.inl (by rw [hp]; simp))]
  · intro hpv s hvs hs1 hcont hrels hors
    constructor
    · exact claimChain_run segs oracle hnext (segs.length + 1) v s hvs hs1 hcont hrels
        hors (by omega)
    · have hlen1 : (segs.set v { segs.getD v default with released := true }).length
          = segs.length := by simp
      have hnext1 : ∀ j, j + 1 < (segs.set v { segs.getD v default with
          released := true }).length →
          ((segs.set v { segs.getD v default with released := true }).getD j
            default).nextSeg = some (j + 1) := by
        intro j hj
        rw [hlen1] at hj
        rw [(setRel_fields segs v true j).2.1]
        exact hnext j hj
      have hhead1 : ∀ j, j + 1 < (segs.set v { segs.getD v default with
          released := true }).length →
          ((segs.set v { segs.getD v default with released := true }).getD j
            default).headNode =
          some (((segs.set v { segs.getD v default with released := true }).getD (j+1)
            default).tailNode - 1) := by
        intro j hj
        rw [hlen1] at hj
        rw [(setRel_fields segs v true j).2.2.1, (setRel_fields segs v true (j+1)).1]
        exact hhead j hj
      have hmono1 : ∀ j, j + 1 < (segs.set v { segs.getD v default with
          released := true }).length →
          ((segs.set v { segs.getD v default with released := true }).getD j
            default).tailNode <
          ((segs.set v { segs.getD v default with released := true }).getD (j+1)
            default).tailNode := by
        intro j hj
        rw [hlen1] at hj
        rw [(setRel_fields segs v true j).1, (setRel_fields segs v true (j+1)).1]
        exact hmono j hj
      have htn1 : ∀ j, j < (segs.set v { segs.getD v default with
          released := true }).length →
          ((segs.set v { segs.getD v default with released := true }).getD j
            default).tailNode < n := by
        intro j hj
        rw [hlen1] at hj
        rw [(setRel_fields segs v true j).1]
        exact htn j hj
      have hcont1 : ∀ j, v ≤ j → j < s →
          (((segs.set v { segs.getD v default with released := true }).getD (j+1)
            default).released = true ∨ oracle j = false) := by
        intro j hj1 hj2
        rw [setRel_rel segs v true (j+1) hv, if_neg (by omega)]
        exact hcont j hj1 hj2
      have hrels1 : ((segs.set v { segs.getD v default with released := true }).getD
          (s+1) default).released = false := by
        rw [setRel_rel segs v true (s+1) hv, if_neg (by omega)]
        exact hrels
      have hrun := tvFreeLoop_run n oracle
        (segs.set v { segs.getD v default with released := true })
        hnext1 hhead1 hmono1 htn1 (segs.length + 1) v s fr hfr hvs
        (by rw [hlen1]; exact hs1) hcont1 hrels1 hors (by omega)
      obtain ⟨fr', heq, hlen', hchar⟩ := hrun
      have hgd : (segs.set v { segs.getD v default with released := true }).getD (s+1)
          default = segs.getD (s+1) default := getD_set_other (by omega)
      rw [hgd] at heq
      refine ⟨fr', ?_, ?_⟩
      · unfold tailVersionFree
        rw [if_neg (by rw [hpv, hrelv]; simp)]
        exact heq
      · intro i
        rw [hchar i]
        have hcfa := claimFreedAt_range segs hhead hmono (s + 1 - v) v (by omega) i
        have hvv : v + (s + 1 - v) = s + 1 := by omega
        rw [hvv] at hcfa
        rw [(setRel_fields segs v true v).1, (setRel_fields segs v true (s+1)).1]
        rw [← hcfa]

/-- Witness for claim C7 on a concrete two-segment chain over a two-node
log, destructor invoked on the retired segment 0. -/
theorem aru_c7_destructor_witness :
    (∀ p, (c7segs.getD 0 default).prevSeg = some p →
      tailVersionFree (bNextL 2) (bPrevL 2) (fun _ => true) 0 c7segs [false, false] =
        some (c7segs.set 0 { c7segs.getD 0 default with released := true }, [false, false])) ∧
    ((c7segs.getD 0 default).prevSeg = none →
      ∀ s, 0 ≤ s → s + 1 < c7segs.length →
      (∀ j, 0 ≤ j → j < s →
        ((c7segs.getD (j+1) default).released = true ∨ (fun _ => true) j = false)) →
      (c7segs.getD (s+1) default).released = false → (fun _ => true) s = true →
      claimChain c7segs (fun _ => true) (c7segs.length + 1) 0 = List.range' 0 (s + 1 - 0) ∧
      ∃ fr',
        tailVersionFree (bNextL 2) (bPrevL 2) (fun _ => true) 0 c7segs [false, false] =
          some ((c7segs.set 0 { c7segs.getD 0 default with released := true }).set (s+1)
            { c7segs.getD (s+1) default with prevSeg := none, released := false }, fr') ∧
        (∀ i, fr'.getD i false = true ↔
          ([false, false].getD i false = true ∨
            claimFreedAt c7segs (List.range' 0 (s + 1 - 0)) i = true))) := by
  have h := aru_c7_destructor 2 (fun _ => true) c7segs [false, false] 0 rfl
    (by
      intro j hj
      have h2 : c7segs.length = 2 := rfl
      have hj0 : j = 0 := by omega
      subst hj0
      rfl)
    (by
      intro j hj
      have h2 : c7segs.length = 2 := rfl
      have hj0 : j = 0 := by omega
      subst hj0
      rfl)
    (by
      intro j hj
      have h2 : c7segs.length = 2 := rfl
      have hj0 : j = 0 := by omega
      subst hj0
      decide)
    (by decide) (by decide) rfl
  exact h

/-- Claim C8 (code bug): destroying a quiescent engine does not free all
allocations.  On the quiescent two-node engine c8state, aru_destroy
(src/aru.c:178-191) destroys the gate, frees only the single node that
aru->head points to (node 1, src/aru.c:186-188) and the engine record, and
never frees node 0, which is still covered by the installed tail segment;
the claim is refuted at this input.  (With the gate's destroy modelled from
the spec the destructor of the never-superseded installed version does not
run; if it did run instead, its freeing loop would walk past the NULL
head_node of the installed segment and dereference NULL.) -/
theorem aru_c8_destroy_leaks :
    (aruDestroy c8state).freed.getD 0 false = false ∧
    (aruDestroy c8state).freed.getD 1 false = true ∧
    (aruDestroy c8state).gateAlive = false ∧
    (aruDestroy c8state).aruAlive = false ∧
    ¬ allFreed (aruDestroy c8state) := by
  refine ⟨rfl, rfl, rfl, rfl, ?_⟩
  intro hall
  have h0 := hall.1 0 (by decide)
  exact absurd h0 (by decide)

/-- Claim C9: on allocation failure aru_init returns NULL after writing one
message (first three conjuncts, with the source's exact text including its
typo), and aru_update or aru_read drops the submission after one message:
the engine state is returned unchanged — head, installed tail segment,
segment list, tail-move flag, node count, in-flight submissions — the
caller's cell keeps its value, and the engine remains usable: any later
submission behaves exactly as if the failed call had never happened (last
conjunct). -/
theorem aru_c9_alloc_failure (st : MState) (cell : Option Bool) :
    (aruInit false true).1 = none ∧
    (aruInit true false).1 = none ∧
    (aruInit false true).2 = ["aru_init: aru allocaation failed\n"] ∧
    (aruInit true false).2 = ["aru_init: atomsnap_init_gate() failed\n"] ∧
    aruUpdate false st cell = (st, cell, ["aru_update(): aru_node allocation failed\n"]) ∧
    aruRead false st cell = (st, cell, ["aru_update(): aru_node allocation failed\n"]) ∧
    (aruUpdate false st cell).1.head = st.head ∧
    (aruUpdate false st cell).1.installed = st.installed ∧
    (aruUpdate false st cell).1.segs = st.segs ∧
    (aruUpdate false st cell).1.tailMoveFlag = st.tailMoveFlag ∧
    (aruUpdate false st cell).1.numNodes = st.numNodes ∧
    (aruUpdate false st cell).1.threads = st.threads ∧
    (∀ alloc2 cell2, aruUpdate alloc2 ((aruUpdate false st cell).1) cell2 =
      aruUpdate alloc2 st cell2) ∧
    (∀ alloc2 cell2, aruRead alloc2 ((aruRead false st cell).1) cell2 =
      aruRead alloc2 st cell2) :=
  ⟨rfl, rfl, rfl, rfl, rfl, rfl, rfl, rfl, rfl, rfl, rfl, rfl,
   fun _ _ => rfl, fun _ _ => rfl⟩

/-- Witness for claim C9 at a fresh engine with a caller cell holding
DONE. -/
theorem aru_c9_alloc_failure_witness :
    (aruInit false true).1 = none ∧
    (aruInit true false).1 = none ∧
    (aruInit false true).2 = ["aru_init: aru allocaation failed\n"] ∧
    (aruInit true false).2 = ["aru_init: atomsnap_init_gate() failed\n"] ∧
    aruUpdate false (initState []) (some true) =
      (initState [], some true, ["aru_update(): aru_node allocation failed\n"]) ∧
    aruRead false (initState []) (some true) =
      (initState [], some true, ["aru_update(): aru_node allocation failed\n"]) ∧
    (aruUpdate false (initState []) (some true)).1.head = (initState []).head ∧
    (aruUpdate false (initState []) (some true)).1.installed = (initState []).installed ∧
    (aruUpdate false (initState []) (some true)).1.segs = (initState []).segs ∧
    (aruUpdate false (initState []) (some true)).1.tailMoveFlag = (initState []).tailMoveFlag ∧
    (aruUpdate false (initState []) (some true)).1.numNodes = (initState []).numNodes ∧
    (aruUpdate false (initState []) (some true)).1.threads = (initState []).threads ∧
    (∀ alloc2 cell2, aruUpdate alloc2 ((aruUpdate false (initState []) (some true)).1) cell2 =
      aruUpdate alloc2 (initState []) cell2) ∧
    (∀ alloc2 cell2, aruRead alloc2 ((aruRead false (initState []) (some true)).1) cell2 =
      aruRead alloc2 (initState []) cell2) :=
  aru_c9_alloc_failure (initState []) (some true)

/-- Claim C10: when node allocation fails in aru_update or aru_read and the
caller supplied a status cell, the cell is never written: it keeps whatever
value it held before the call (first two conjuncts, for an arbitrary prior
value), whereas a successful submission stores ARU_TAG_PENDING into the
cell before insertion (last two conjuncts). -/
theorem aru_c10_status_cell_untouched (st : MState) (v : Bool) :
    (aruUpdate false st (some v)).2.1 = some v ∧
    (aruRead false st (some v)).2.1 = some v ∧
    (aruUpdate true st (some v)).2.1 = some false ∧
    (aruRead true st (some v)).2.1 = some false :=
  ⟨rfl, rfl, rfl, rfl⟩

/-- Witness for claim C10 at a fresh engine with a cell holding DONE. -/
theorem aru_c10_status_cell_untouched_witness :
    (aruUpdate false (initState []) (some true)).2.1 = some true ∧
    (aruRead false (initState []) (some true)).2.1 = some true ∧
    (aruUpdate true (initState []) (some true)).2.1 = some false ∧
    (aruRead true (initState []) (some true)).2.1 = some false :=
  aru_c10_status_cell_untouched (initState []) true
